import Mathlib

/-!
# Meilisearch endpoint of go-mysql-transfer

A shallow embedding of `service/endpoint/meilisearch.go`.

* The Meilisearch client is a third-party library: it is a parameter
  (`Client σ`), a deterministic transition system over an arbitrary backend
  state `σ`.  Every client call made by the endpoint is appended, with the
  response it received, to a call log (`World.calls`).
* Helpers of the repository that live in other files (`rowMap`, `primaryKey`,
  `stringutil.ToString`, `Rule.WrapName`, `Rule.LuaEnable`, `global.RuleIns`)
  are parameters as well (`Env`).
* Go run-time panics (nil rule, slice index out of range) are an explicit
  result (`Outcome.panic`).
* `logs.*` calls only print and are left out; `metrics.UpdateActionNum` is kept
  as a list of recorded updates.
-/

namespace Meili

/-! ## Data model -/

/-- Go `error` values that are not nil. -/
abbrev Error := String

/-- Task identifier handed out by the backend (`TaskInfo.TaskUID`, an int64). -/
abbrev TaskUID := Int

/-- Dynamic Go values (`interface{}`) carried by a row and by a document. -/
inductive Value where
  | null
  | int (i : Int)
  | str (s : String)
  | bool (b : Bool)
deriving DecidableEq

/-- A document, `map[string]interface{}`, as an association list with unique keys on update. -/
abbrev Document := List (String × Value)

/-- Go map assignment `kvm[k] = v`. -/
def Document.set (d : Document) (k : String) (v : Value) : Document :=
  (k, v) :: d.filter (fun p => p.1 ≠ k)

/-- Go map read `kvm[k]`. -/
def Document.get (d : Document) (k : String) : Option Value :=
  match d with
  | [] => none
  | p :: rest => if p.1 = k then some p.2 else Document.get rest k

/-- Column metadata, `schema.TableColumn`: only the name is read here. -/
structure Column where
  Name : String
deriving DecidableEq

/-- Table metadata, `schema.Table`: the columns and the indices of the primary-key columns. -/
structure TableInfo where
  Columns : List Column
  PKColumns : List Int
deriving DecidableEq

/-- The fields of `global.Rule` read by the endpoint. -/
structure Rule where
  MeilisearchIndex : String
  MeilisearchPrimaryKey : String
  MeilisearchSearchableAttrs : String
  MeilisearchFilterableAttrs : String
  MeilisearchSortableAttrs : String
  IsCompositeKey : Bool
  TableColumnSize : Int
  TableInfo : TableInfo
deriving DecidableEq

/-- The fields of `model.RowRequest` read by the endpoint. -/
structure RowRequest where
  RuleKey : String
  Action : String
  Row : List Value
deriving DecidableEq

/-- The constant `canal.InsertAction`. -/
def InsertAction : String := "insert"

/-- The constant `canal.UpdateAction`. -/
def UpdateAction : String := "update"

/-- The constant `canal.DeleteAction`. -/
def DeleteAction : String := "delete"

/-- Helpers of the repository defined outside `meilisearch.go`, taken as parameters.
`RuleIns k = none` stands for the nil pointer `global.RuleIns` yields for an unknown key. -/
structure Env where
  RuleIns : String → Option Rule
  LuaEnable : Rule → Bool
  WrapName : Rule → String → String
  rowMap : RowRequest → Rule → Bool → Document
  primaryKey : RowRequest → Rule → Value
  ToString : Value → String

/-- Modelled from the spec: the terminal status of an IndexJob (section 3, "succeeded/failed"),
the first value `WaitForTask` returns, which is the `*Task` of the client library. -/
inductive JobOutcome where
  | succeeded
  | failed
deriving DecidableEq

/-- A Go `(value, err)` result: either `err == nil` with a value, or an error. -/
inductive Resp (α : Type) where
  | ok (a : α)
  | err (e : Error)
deriving DecidableEq

/-- The three attribute categories of an index. -/
inductive AttrCategory where
  | searchable
  | filterable
  | sortable
deriving DecidableEq

/-- The part of the Meilisearch client used by the endpoint, over a backend state `σ`. -/
structure Client (σ : Type) where
  GetIndex : String → σ → Option Error × σ
  CreateIndex : String → String → σ → Resp TaskUID × σ
  WaitForTask : TaskUID → σ → Resp JobOutcome × σ
  UpdateSearchableAttributes : String → List String → σ → Resp TaskUID × σ
  UpdateFilterableAttributes : String → List String → σ → Resp TaskUID × σ
  UpdateSortableAttributes : String → List String → σ → Resp TaskUID × σ
  AddDocuments : String → List Document → σ → Resp TaskUID × σ
  DeleteDocument : String → String → σ → Resp TaskUID × σ

/-- One client call together with the response it received. -/
inductive Call where
  | getIndex (uid : String) (r : Option Error)
  | createIndex (uid : String) (primaryKey : String) (r : Resp TaskUID)
  | waitForTask (task : TaskUID) (r : Resp JobOutcome)
  | updateAttributes (cat : AttrCategory) (uid : String) (attrs : List String) (r : Resp TaskUID)
  | addDocuments (uid : String) (docs : List Document) (r : Resp TaskUID)
  | deleteDocument (uid : String) (docID : String) (r : Resp TaskUID)
deriving DecidableEq

/-- The backend state and the log of the client calls made so far. -/
structure World (σ : Type) where
  backend : σ
  calls : List Call

/-- The world seen by `Consume`: the backend with its log, and the metric updates recorded. -/
structure Runtime (σ : Type) where
  world : World σ
  metrics : List (String × String)

/-- How a Go function call ends: it returns a value or panics. -/
inductive Outcome (α : Type) where
  | ret (a : α)
  | panic
deriving DecidableEq

/-! ## Go standard library -/

/-- Go `unicode.IsSpace`. -/
def isSpace (c : Char) : Bool :=
  let n := c.toNat
  n = 9 || n = 10 || n = 11 || n = 12 || n = 13 || n = 32 || n = 0x85 || n = 0xA0 ||
  n = 0x1680 || (0x2000 ≤ n && n ≤ 0x200A) || n = 0x2028 || n = 0x2029 || n = 0x202F ||
  n = 0x205F || n = 0x3000

/-- Go `strings.TrimSpace`. -/
def TrimSpace (s : String) : String :=
  String.mk ((s.data.dropWhile isSpace).reverse.dropWhile isSpace).reverse

/-- Splitting a character list at every occurrence of the separator. -/
def splitChars (sep : Char) : List Char → List (List Char)
  | [] => [[]]
  | c :: cs =>
    if c = sep then [] :: splitChars sep cs
    else
      match splitChars sep cs with
      | [] => [[c]]
      | w :: ws => (c :: w) :: ws

/-- Go `strings.Split(s, sep)` for a one-character separator. -/
def Split (s : String) (sep : Char) : List String :=
  (splitChars sep s.data).map String.mk

/-- Go slice indexing `xs[i]`; `none` is the index-out-of-range panic. -/
def sliceGet {α : Type} (xs : List α) (i : Int) : Option α :=
  if i < 0 then none else xs.get? i.toNat

/-! ## Client calls, logged -/

/-- Run one client call on the backend and append it to the log. -/
def World.step {σ α : Type} (w : World σ) (r : α × σ) (entry : α → Call) : α × World σ :=
  (r.1, { backend := r.2, calls := w.calls ++ [entry r.1] })

/-- The call `s.client.GetIndex(uid)`. -/
def getIndex {σ : Type} (c : Client σ) (uid : String) (w : World σ) : Option Error × World σ :=
  w.step (c.GetIndex uid w.backend) (Call.getIndex uid)

/-- The call `s.client.CreateIndex(&IndexConfig{Uid, PrimaryKey})`. -/
def createIndex {σ : Type} (c : Client σ) (uid pk : String) (w : World σ) :
    Resp TaskUID × World σ :=
  w.step (c.CreateIndex uid pk w.backend) (Call.createIndex uid pk)

/-- The call `s.client.WaitForTask(task.TaskUID)`. -/
def waitForTask {σ : Type} (c : Client σ) (task : TaskUID) (w : World σ) :
    Resp JobOutcome × World σ :=
  w.step (c.WaitForTask task w.backend) (Call.waitForTask task)

/-- The calls `index.UpdateSearchableAttributes`, `index.UpdateFilterableAttributes` and
`index.UpdateSortableAttributes`, by category. -/
def updateAttributes {σ : Type} (c : Client σ) (cat : AttrCategory) (uid : String)
    (attrs : List String) (w : World σ) : Resp TaskUID × World σ :=
  match cat with
  | .searchable =>
    w.step (c.UpdateSearchableAttributes uid attrs w.backend) (Call.updateAttributes cat uid attrs)
  | .filterable =>
    w.step (c.UpdateFilterableAttributes uid attrs w.backend) (Call.updateAttributes cat uid attrs)
  | .sortable =>
    w.step (c.UpdateSortableAttributes uid attrs w.backend) (Call.updateAttributes cat uid attrs)

/-- The call `index.AddDocuments(documents)`. -/
def addDocuments {σ : Type} (c : Client σ) (uid : String) (docs : List Document) (w : World σ) :
    Resp TaskUID × World σ :=
  w.step (c.AddDocuments uid docs w.backend) (Call.addDocuments uid docs)

/-- The call `index.DeleteDocument(docID)`. -/
def deleteDocument {σ : Type} (c : Client σ) (uid docID : String) (w : World σ) :
    Resp TaskUID × World σ :=
  w.step (c.DeleteDocument uid docID w.backend) (Call.deleteDocument uid docID)

/-- The pattern every mutation of the file follows:
`task, err := submit(...)`, leave on `err != nil`, then `_, err = s.client.WaitForTask(task.TaskUID)`,
leave on `err != nil`.  The result is the error that makes the caller leave, if any.
The `*Task` returned by `WaitForTask` is discarded by the source (`_`). -/
def submitAndWait {σ : Type} (c : Client σ) (submit : World σ → Resp TaskUID × World σ)
    (w : World σ) : Option Error × World σ :=
  match (submit w).1 with
  | .err e => (some e, (submit w).2)
  | .ok task =>
    match (waitForTask c task (submit w).2).1 with
    | .err e => (some e, (waitForTask c task (submit w).2).2)
    | .ok _ => (none, (waitForTask c task (submit w).2).2)

/-! ## The endpoint -/

namespace MeilisearchEndpoint

/-- The expression `rule.TableInfo.Columns[rule.TableInfo.PKColumns[0]]`. -/
def pkColumn (rule : Rule) : Option Column :=
  match rule.TableInfo.PKColumns with
  | [] => none
  | i :: _ => sliceGet rule.TableInfo.Columns i

/-- Sequencing inside a function that returns `error`: go on only after a nil error. -/
def andThen {σ : Type} (r : Outcome (Option Error) × World σ)
    (k : World σ → Outcome (Option Error) × World σ) : Outcome (Option Error) × World σ :=
  match r.1 with
  | .ret none => k r.2
  | _ => r

/-- One attribute block of `createOrUpdateIndex` (lines 106-152): when the configured string is
not empty, split it at commas, trim every part, submit the update and wait for it. -/
def applyAttrs {σ : Type} (c : Client σ) (cat : AttrCategory) (uid : String) (config : String)
    (w : World σ) : Outcome (Option Error) × World σ :=
  if config ≠ "" then
    let attrs := (Split config ',').map TrimSpace
    let r := submitAndWait c (updateAttributes c cat uid attrs) w
    (.ret r.1, r.2)
  else (.ret none, w)

/-- The function `createOrUpdateIndex` (lines 69-155). -/
def createOrUpdateIndex {σ : Type} (env : Env) (c : Client σ) (rule : Rule) (w : World σ) :
    Outcome (Option Error) × World σ :=
  let indexUID := rule.MeilisearchIndex
  let g := getIndex c indexUID w
  let created : Outcome (Option Error) × World σ :=
    match g.1 with
    | none => (.ret none, g.2)
    | some _ =>
      let primaryKey : Option String :=
        if rule.MeilisearchPrimaryKey ≠ "" then some rule.MeilisearchPrimaryKey
        else if rule.IsCompositeKey then some "id"
        else (pkColumn rule).map (fun pkCol => env.WrapName rule pkCol.Name)
      match primaryKey with
      | none => (.panic, g.2)
      | some pk =>
        let r := submitAndWait c (createIndex c indexUID pk) g.2
        (.ret r.1, r.2)
  andThen created fun w1 =>
  andThen (applyAttrs c .searchable indexUID rule.MeilisearchSearchableAttrs w1) fun w2 =>
  andThen (applyAttrs c .filterable indexUID rule.MeilisearchFilterableAttrs w2) fun w3 =>
  applyAttrs c .sortable indexUID rule.MeilisearchSortableAttrs w3

/-- The function `processSingleRow` (lines 192-245). -/
def processSingleRow {σ : Type} (env : Env) (c : Client σ) (row : RowRequest) (rule : Rule)
    (w : World σ) : Outcome (Option Error) × World σ :=
  let index := rule.MeilisearchIndex
  if row.Action = InsertAction ∨ row.Action = UpdateAction then
    let kvm := env.rowMap row rule false
    let id := env.primaryKey row rule
    let kvm1 : Option Document :=
      if rule.MeilisearchPrimaryKey ≠ "" then some (kvm.set rule.MeilisearchPrimaryKey id)
      else if rule.IsCompositeKey then some (kvm.set "id" id)
      else (pkColumn rule).map (fun pkCol => kvm.set (env.WrapName rule pkCol.Name) id)
    match kvm1 with
    | none => (.panic, w)
    | some doc =>
      let r := submitAndWait c (addDocuments c index [doc]) w
      (.ret r.1, r.2)
  else if row.Action = DeleteAction then
    let id := env.primaryKey row rule
    let docID := env.ToString id
    let r := submitAndWait c (deleteDocument c index docID) w
    (.ret r.1, r.2)
  else (.ret none, w)

/-- The function `Consume` (lines 167-190); the position `pos` is accepted and not used. -/
def Consume {σ : Type} (env : Env) (c : Client σ) (pos : String × Nat) :
    List RowRequest → Runtime σ → Outcome (Option Error) × Runtime σ
  | [], rt => (.ret none, rt)
  | row :: rows, rt =>
    match env.RuleIns row.RuleKey with
    | none => (.panic, rt)
    | some rule =>
      if rule.TableColumnSize ≠ (row.Row.length : Int) then Consume env c pos rows rt
      else
        let metrics := rt.metrics ++ [(row.Action, row.RuleKey)]
        if env.LuaEnable rule then
          Consume env c pos rows { world := rt.world, metrics := metrics }
        else
          match (processSingleRow env c row rule rt.world).1 with
          | .ret none =>
            Consume env c pos rows
              { world := (processSingleRow env c row rule rt.world).2, metrics := metrics }
          | res => (res, { world := (processSingleRow env c row rule rt.world).2, metrics := metrics })

/-- The loop of `Stock` (lines 253-297) with the running `count`. -/
def stockLoop {σ : Type} (env : Env) (c : Client σ) :
    List RowRequest → Nat → World σ → Outcome Nat × World σ
  | [], count, w => (.ret count, w)
  | row :: rows, count, w =>
    match env.RuleIns row.RuleKey with
    | none => (.panic, w)
    | some rule =>
      if rule.TableColumnSize ≠ (row.Row.length : Int) then stockLoop env c rows count w
      else if env.LuaEnable rule then stockLoop env c rows count w
      else
        let kvm := env.rowMap row rule false
        let id := env.primaryKey row rule
        let kvm1 : Option Document :=
          if rule.MeilisearchPrimaryKey ≠ "" then some (kvm.set rule.MeilisearchPrimaryKey id)
          else if rule.IsCompositeKey then some (kvm.set "id" id)
          else (pkColumn rule).map (fun pkCol => kvm.set (env.WrapName rule pkCol.Name) id)
        match kvm1 with
        | none => (.panic, w)
        | some doc =>
          match (submitAndWait c (addDocuments c rule.MeilisearchIndex [doc]) w).1 with
          | some _ =>
            stockLoop env c rows count (submitAndWait c (addDocuments c rule.MeilisearchIndex [doc]) w).2
          | none =>
            stockLoop env c rows (count + 1)
              (submitAndWait c (addDocuments c rule.MeilisearchIndex [doc]) w).2

/-- The function `Stock` (lines 247-300).  The counter is an int64 in the source; it is at most
the length of the slice, so it never wraps. -/
def Stock {σ : Type} (env : Env) (c : Client σ) (rows : List RowRequest) (w : World σ) :
    Outcome Nat × World σ :=
  if rows.length = 0 then (.ret 0, w) else stockLoop env c rows 0 w

end MeilisearchEndpoint

/-! ## Specification-side vocabulary

The definitions below follow the words of the specification (sections 3 and 4); the theorems
compare them with the endpoint above. -/

/-- Spec section 3: the primary-key field is (1) the explicit override when non-empty, (2) `"id"`
when the rule declares a composite key, (3) the wrapped name of the table's primary-key column.
`none` when the table has no such column. -/
def resolvePrimaryKeyField (env : Env) (rule : Rule) : Option String :=
  if rule.MeilisearchPrimaryKey ≠ "" then some rule.MeilisearchPrimaryKey
  else if rule.IsCompositeKey then some "id"
  else
    match rule.TableInfo.PKColumns with
    | [] => none
    | i :: _ => (sliceGet rule.TableInfo.Columns i).map (fun col => env.WrapName rule col.Name)

/-- Spec section 3: an event is applied only if its rule is known, its number of column values is
the rule's table column count, and scripting is off for the rule.  Gives the rule then. -/
def eligible (env : Env) (row : RowRequest) : Option Rule :=
  match env.RuleIns row.RuleKey with
  | none => none
  | some rule =>
    if rule.TableColumnSize = (row.Row.length : Int) ∧ env.LuaEnable rule = false then some rule
    else none

/-- Spec section 4.1: the event's rule is known and its primary-key field resolves
(a missing primary key is a configuration error caught upstream). -/
def wellFormed (env : Env) (row : RowRequest) : Bool :=
  match env.RuleIns row.RuleKey with
  | none => false
  | some rule => (resolvePrimaryKeyField env rule).isSome

/-- Spec section 4.2: the document of an event, the mapped row overlaid with the resolved identity
under the primary-key field. -/
def specDocument (env : Env) (row : RowRequest) (rule : Rule) : Option Document :=
  (resolvePrimaryKeyField env rule).map
    (fun f => (env.rowMap row rule false).set f (env.primaryKey row rule))

/-- A document mutation asked of the backend. -/
inductive Mutation where
  | upsert (uid : String) (doc : Document)
  | remove (uid : String) (docID : String)
deriving DecidableEq

/-- Spec section 4.5: the mutation of an event under its rule on the streaming path, Insert and
Update as an upsert of the document, Delete as a removal by the string form of the identity. -/
def streamMutationFor (env : Env) (row : RowRequest) (rule : Rule) : Option Mutation :=
  if row.Action = InsertAction ∨ row.Action = UpdateAction then
    (specDocument env row rule).map (Mutation.upsert rule.MeilisearchIndex)
  else if row.Action = DeleteAction then
    some (Mutation.remove rule.MeilisearchIndex (env.ToString (env.primaryKey row rule)))
  else none

/-- Spec section 4.5: the mutation of an event on the streaming path, none for a dropped event. -/
def streamMutation (env : Env) (row : RowRequest) : Option Mutation :=
  match eligible env row with
  | none => none
  | some rule => streamMutationFor env row rule

/-- The mutation of an event on the bulk path: an upsert of the document, whatever the action;
none for a dropped event. -/
def bulkMutation (env : Env) (row : RowRequest) : Option Mutation :=
  match eligible env row with
  | none => none
  | some rule => (specDocument env row rule).map (Mutation.upsert rule.MeilisearchIndex)

/-- The submission call of a mutation, as it appears in the log. -/
def Mutation.toCall : Mutation → Resp TaskUID → Call
  | .upsert uid doc, r => Call.addDocuments uid [doc] r
  | .remove uid docID, r => Call.deleteDocument uid docID r

/-- Submitting a mutation to the backend. -/
def Mutation.submit {σ : Type} (c : Client σ) : Mutation → σ → Resp TaskUID × σ
  | .upsert uid doc, s => c.AddDocuments uid [doc] s
  | .remove uid docID, s => c.DeleteDocument uid docID s

/-- The mutation a logged call submits, if it is a document mutation. -/
def Call.submission : Call → Option Mutation
  | .addDocuments uid [doc] _ => some (.upsert uid doc)
  | .deleteDocument uid docID _ => some (.remove uid docID)
  | _ => none

/-- What happened to one mutation: its submission returned an error, or its completion wait
returned an error, or both returned without error (the wait then reports the job outcome). -/
inductive Attempt where
  | submitFailed (e : Error)
  | waitFailed (task : TaskUID) (e : Error)
  | completed (task : TaskUID) (o : JobOutcome)
deriving DecidableEq

/-- The error of an attempt, `none` when submission and wait both succeeded. -/
def Attempt.error : Attempt → Option Error
  | .submitFailed e => some e
  | .waitFailed _ e => some e
  | .completed _ _ => none

/-- Submission and completion wait both returned without error. -/
def Attempt.succeeded (a : Attempt) : Bool := a.error.isNone

/-- The calls of one attempt, as they appear in the log. -/
def Attempt.calls (m : Mutation) : Attempt → List Call
  | .submitFailed e => [m.toCall (.err e)]
  | .waitFailed task e => [m.toCall (.ok task), Call.waitForTask task (.err e)]
  | .completed task o => [m.toCall (.ok task), Call.waitForTask task (.ok o)]

/-- Submit a mutation, and await it when the submission was accepted, on the bare backend. -/
def attempt {σ : Type} (c : Client σ) (m : Mutation) (s : σ) : Attempt × σ :=
  match (m.submit c s).1 with
  | .err e => (.submitFailed e, (m.submit c s).2)
  | .ok task =>
    match (c.WaitForTask task (m.submit c s).2).1 with
    | .err e => (.waitFailed task e, (c.WaitForTask task (m.submit c s).2).2)
    | .ok o => (.completed task o, (c.WaitForTask task (m.submit c s).2).2)

/-- Attempt every mutation of a list in order, whatever happens to the earlier ones. -/
def attempts {σ : Type} (c : Client σ) : List Mutation → σ → List Attempt × σ
  | [], s => ([], s)
  | m :: ms, s =>
    ((attempt c m s).1 :: (attempts c ms (attempt c m s).2).1, (attempts c ms (attempt c m s).2).2)

/-- The log of a list of mutations with what happened to each. -/
def traceOf : List Mutation → List Attempt → List Call
  | m :: ms, a :: as => a.calls m ++ traceOf ms as
  | _, _ => []

/-- The configured attribute string of a category. -/
def Rule.attrConfig (rule : Rule) : AttrCategory → String
  | .searchable => rule.MeilisearchSearchableAttrs
  | .filterable => rule.MeilisearchFilterableAttrs
  | .sortable => rule.MeilisearchSortableAttrs

/-- A logged call is an index creation. -/
def Call.isCreateIndex : Call → Bool
  | .createIndex _ _ _ => true
  | _ => false

/-- A logged call is a document deletion. -/
def Call.isDeleteDocument : Call → Bool
  | .deleteDocument _ _ _ => true
  | _ => false

/-- A logged call is a completion wait that returned without error. -/
def Call.isCompletedWait : Call → Bool
  | .waitForTask _ (.ok _) => true
  | _ => false

/-! ## A reference backend -/

/-- Modelled from the spec: the configuration and content of one index of the backend of
section 6, the primary-key field, the three attribute lists, and the documents by identity. -/
structure IndexState where
  primaryKey : String
  searchable : List String
  filterable : List String
  sortable : List String
  docs : String → Option Document

/-- Modelled from the spec: the state of the backend of section 6, its indexes by uid and the
outcome of every job accepted so far (the task uid is the position in the list). -/
structure MemBackend where
  indexes : String → Option IndexState
  tasks : List JobOutcome

/-- The attribute list of a category. -/
def IndexState.attrs (ix : IndexState) : AttrCategory → List String
  | .searchable => ix.searchable
  | .filterable => ix.filterable
  | .sortable => ix.sortable

/-- Replace the attribute list of a category. -/
def IndexState.setAttrs (ix : IndexState) (cat : AttrCategory) (attrs : List String) : IndexState :=
  match cat with
  | .searchable => { ix with searchable := attrs }
  | .filterable => { ix with filterable := attrs }
  | .sortable => { ix with sortable := attrs }

/-- Upsert: store a document under the string form of its identity, the value of the index's
primary-key field; `none` when a document has no such field. -/
def IndexState.store (str : Value → String) (ix : IndexState) : List Document → Option IndexState
  | [] => some ix
  | doc :: docs =>
    match doc.get ix.primaryKey with
    | none => none
    | some v =>
      IndexState.store str
        { ix with docs := fun k => if k = str v then some doc else ix.docs k } docs

/-- Remove the document stored under an identity. -/
def IndexState.delete (ix : IndexState) (docID : String) : IndexState :=
  { ix with docs := fun k => if k = docID then none else ix.docs k }

/-- Accept a job: it runs at once, leaves the given indexes, and its outcome is recorded. -/
def MemBackend.enqueue (s : MemBackend) (indexes : String → Option IndexState) (o : JobOutcome) :
    Resp TaskUID × MemBackend :=
  (.ok (s.tasks.length : Int), { indexes := indexes, tasks := s.tasks ++ [o] })

/-- Put an index under a uid. -/
def MemBackend.withIndex (s : MemBackend) (uid : String) (ix : IndexState) :
    String → Option IndexState :=
  fun u => if u = uid then some ix else s.indexes u

/-- An attribute update on the reference backend. -/
def MemBackend.update (cat : AttrCategory) (uid : String) (attrs : List String) (s : MemBackend) :
    Resp TaskUID × MemBackend :=
  match s.indexes uid with
  | none => s.enqueue s.indexes .failed
  | some ix => s.enqueue (s.withIndex uid (ix.setAttrs cat attrs)) .succeeded

/-- Modelled from the spec: the backend API of section 6 (`indexExists`, `createIndex`,
`updateAttributes`, `upsertDocuments`, `deleteDocument`, `awaitJob`) on `MemBackend`.
Documents are stored by identity; `str` is the backend's string form of an identity.
A job that cannot run is accepted and fails; `WaitForTask` reports the outcome without error. -/
def memClient (str : Value → String) : Client MemBackend where
  GetIndex := fun uid s =>
    match s.indexes uid with
    | some _ => (none, s)
    | none => (some "index_not_found", s)
  CreateIndex := fun uid pk s =>
    match s.indexes uid with
    | some _ => s.enqueue s.indexes .failed
    | none =>
      s.enqueue (s.withIndex uid
        { primaryKey := pk, searchable := [], filterable := [], sortable := [],
          docs := fun _ => none }) .succeeded
  WaitForTask := fun task s =>
    match sliceGet s.tasks task with
    | some o => (.ok o, s)
    | none => (.err "task_not_found", s)
  UpdateSearchableAttributes := MemBackend.update .searchable
  UpdateFilterableAttributes := MemBackend.update .filterable
  UpdateSortableAttributes := MemBackend.update .sortable
  AddDocuments := fun uid docs s =>
    match s.indexes uid with
    | none => s.enqueue s.indexes .failed
    | some ix =>
      match ix.store str docs with
      | none => s.enqueue s.indexes .failed
      | some ix1 => s.enqueue (s.withIndex uid ix1) .succeeded
  DeleteDocument := fun uid docID s =>
    match s.indexes uid with
    | none => s.enqueue s.indexes .failed
    | some ix => s.enqueue (s.withIndex uid (ix.delete docID)) .succeeded

/-- The configuration of an index: its primary-key field and its three attribute lists. -/
def IndexState.config (ix : IndexState) : String × List String × List String × List String :=
  (ix.primaryKey, ix.searchable, ix.filterable, ix.sortable)

/-- The index after one attribute category of a rule has been applied: a category whose
configured string is empty keeps its list. -/
def IndexState.configureCat (rule : Rule) (ix : IndexState) (cat : AttrCategory) : IndexState :=
  if rule.attrConfig cat ≠ "" then
    ix.setAttrs cat ((Split (rule.attrConfig cat) ',').map TrimSpace)
  else ix

/-- The index after the three attribute categories of a rule have been applied in the order of
`createOrUpdateIndex`. -/
def IndexState.configure (rule : Rule) (ix : IndexState) : IndexState :=
  ((ix.configureCat rule .searchable).configureCat rule .filterable).configureCat rule .sortable

/-! ## Sample inputs -/

/-- A rule for a two-column table `users(id, name)` with primary key `id`. -/
def usersRule : Rule :=
  { MeilisearchIndex := "users", MeilisearchPrimaryKey := "",
    MeilisearchSearchableAttrs := "name, id", MeilisearchFilterableAttrs := "",
    MeilisearchSortableAttrs := "id", IsCompositeKey := false, TableColumnSize := 2,
    TableInfo := { Columns := [⟨"id"⟩, ⟨"name"⟩], PKColumns := [0] } }

/-- The same table synchronised through a script. -/
def scriptedRule : Rule := { usersRule with MeilisearchIndex := "scripted" }

/-- Pair the column names with the values of a row. -/
def zipColumns : List Column → List Value → Document
  | col :: cols, v :: vs => (col.Name, v) :: zipColumns cols vs
  | _, _ => []

/-- A sample environment: two rules, names not wrapped, the identity is the first primary-key
column's value, and strings are their own string form. -/
def sampleEnv : Env :=
  { RuleIns := fun k =>
      if k = "db.users" then some usersRule
      else if k = "db.scripted" then some scriptedRule else none
    LuaEnable := fun rule => rule.MeilisearchIndex = "scripted"
    WrapName := fun _ name => name
    rowMap := fun row rule _ => zipColumns rule.TableInfo.Columns row.Row
    primaryKey := fun row rule =>
      match rule.TableInfo.PKColumns with
      | [] => Value.null
      | i :: _ => (sliceGet row.Row i).getD Value.null
    ToString := fun v =>
      match v with
      | .str s => s
      | .int i => if i = 1 then "1" else "n"
      | .bool b => if b then "true" else "false"
      | .null => "" }

/-- A row event on `db.users`. -/
def userEvent (action : String) (id name : String) : RowRequest :=
  { RuleKey := "db.users", Action := action, Row := [.str id, .str name] }

/-- A backend that accepts everything except the third document submission it receives.
Its state is the number of submissions received. -/
def thirdSubmissionFails : Client Nat where
  GetIndex := fun _ s => (none, s)
  CreateIndex := fun _ _ s => (.ok 0, s)
  WaitForTask := fun _ s => (.ok .succeeded, s)
  UpdateSearchableAttributes := fun _ _ s => (.ok 0, s)
  UpdateFilterableAttributes := fun _ _ s => (.ok 0, s)
  UpdateSortableAttributes := fun _ _ s => (.ok 0, s)
  AddDocuments := fun _ _ s => (if s = 2 then .err "rejected" else .ok (s : Int), s + 1)
  DeleteDocument := fun _ _ s => (if s = 2 then .err "rejected" else .ok (s : Int), s + 1)

/-- A backend that accepts every submission as task 7 and whose job then fails: `WaitForTask`
returns the task with status failed and a nil error. -/
def jobFails : Client Unit where
  GetIndex := fun _ s => (none, s)
  CreateIndex := fun _ _ s => (.ok 7, s)
  WaitForTask := fun _ s => (.ok .failed, s)
  UpdateSearchableAttributes := fun _ _ s => (.ok 7, s)
  UpdateFilterableAttributes := fun _ _ s => (.ok 7, s)
  UpdateSortableAttributes := fun _ _ s => (.ok 7, s)
  AddDocuments := fun _ _ s => (.ok 7, s)
  DeleteDocument := fun _ _ s => (.ok 7, s)

/-- The batch of the specification: E1, E2, E3, E4, all valid inserts. -/
def fourEvents : List RowRequest :=
  [userEvent InsertAction "1" "a", userEvent InsertAction "2" "b",
   userEvent InsertAction "3" "c", userEvent InsertAction "4" "d"]

/-- An insert on the scripted rule. -/
def scriptedInsert : RowRequest :=
  { RuleKey := "db.scripted", Action := InsertAction, Row := [.str "1", .str "a"] }

/-- A delete on the scripted rule, same primary key. -/
def scriptedDelete : RowRequest :=
  { RuleKey := "db.scripted", Action := DeleteAction, Row := [.str "1", .str "a"] }

/-- An insert on `db.users` with one column value instead of two, primary key `"1"`. -/
def shortInsert : RowRequest :=
  { RuleKey := "db.users", Action := InsertAction, Row := [.str "1"] }

/-- A delete on `db.users` with one column value instead of two, primary key `"1"`. -/
def shortDelete : RowRequest :=
  { RuleKey := "db.users", Action := DeleteAction, Row := [.str "1"] }

/-- An empty world over a backend state. -/
def World.init {σ : Type} (s : σ) : World σ := { backend := s, calls := [] }

/-- An empty runtime over a backend state. -/
def Runtime.init {σ : Type} (s : σ) : Runtime σ := { world := World.init s, metrics := [] }

/-- An index with primary key `id`, attributes set by a prior run, and one document under
identity `"1"`. -/
def usersIndex : IndexState :=
  { primaryKey := "id", searchable := ["name"], filterable := ["name"], sortable := [],
    docs := fun k => if k = "1" then some [("id", .str "1"), ("name", .str "old")] else none }

/-- A reference backend holding the indexes `users` and `scripted`, each with one document under
identity `"1"`. -/
def usersBackend : MemBackend :=
  { indexes := fun u =>
      if u = "users" then some usersIndex
      else if u = "scripted" then some usersIndex
      else none
    tasks := [] }

/-- An event on `db.users` with one column value instead of two. -/
def shortEvent : RowRequest :=
  { RuleKey := "db.users", Action := InsertAction, Row := [.str "9"] }

/-- A reference backend without any index. -/
def emptyBackend : MemBackend := { indexes := fun _ => none, tasks := [] }

/-! ## Basic facts -/

theorem Document.get_set (d : Document) (k : String) (v : Value) : (d.set k v).get k = some v := by
  simp [Document.set, Document.get]

theorem resolve_eq_code (env : Env) (rule : Rule) :
    (if rule.MeilisearchPrimaryKey ≠ "" then some rule.MeilisearchPrimaryKey
      else if rule.IsCompositeKey then some "id"
      else (MeilisearchEndpoint.pkColumn rule).map (fun pkCol => env.WrapName rule pkCol.Name))
    = resolvePrimaryKeyField env rule := by
  unfold resolvePrimaryKeyField MeilisearchEndpoint.pkColumn
  split
  · rfl
  · split
    · rfl
    · cases rule.TableInfo.PKColumns <;> simp

theorem code_document_eq (env : Env) (row : RowRequest) (rule : Rule) :
    (if rule.MeilisearchPrimaryKey ≠ "" then
        some ((env.rowMap row rule false).set rule.MeilisearchPrimaryKey (env.primaryKey row rule))
      else if rule.IsCompositeKey then
        some ((env.rowMap row rule false).set "id" (env.primaryKey row rule))
      else (MeilisearchEndpoint.pkColumn rule).map
        (fun pkCol => (env.rowMap row rule false).set (env.WrapName rule pkCol.Name)
          (env.primaryKey row rule)))
    = specDocument env row rule := by
  unfold specDocument resolvePrimaryKeyField MeilisearchEndpoint.pkColumn
  split
  · rfl
  · split
    · rfl
    · cases rule.TableInfo.PKColumns <;> simp [Function.comp_def]

theorem submitAndWait_addDocuments {σ : Type} (c : Client σ) (uid : String) (doc : Document)
    (w : World σ) :
    submitAndWait c (addDocuments c uid [doc]) w =
      ((attempt c (.upsert uid doc) w.backend).1.error,
       { backend := (attempt c (.upsert uid doc) w.backend).2,
         calls := w.calls ++ (attempt c (.upsert uid doc) w.backend).1.calls (.upsert uid doc) }) := by
  unfold submitAndWait attempt
  simp only [addDocuments, World.step, Mutation.submit, waitForTask]
  cases h1 : (c.AddDocuments uid [doc] w.backend).1 with
  | err e => simp [Attempt.error, Attempt.calls, Mutation.toCall]
  | ok task =>
    simp only []
    cases h2 : (c.WaitForTask task (c.AddDocuments uid [doc] w.backend).2).1 with
    | err e => simp [Attempt.error, Attempt.calls, Mutation.toCall]
    | ok o => simp [Attempt.error, Attempt.calls, Mutation.toCall]

theorem submitAndWait_deleteDocument {σ : Type} (c : Client σ) (uid docID : String)
    (w : World σ) :
    submitAndWait c (deleteDocument c uid docID) w =
      ((attempt c (.remove uid docID) w.backend).1.error,
       { backend := (attempt c (.remove uid docID) w.backend).2,
         calls := w.calls ++
           (attempt c (.remove uid docID) w.backend).1.calls (.remove uid docID) }) := by
  unfold submitAndWait attempt
  simp only [deleteDocument, World.step, Mutation.submit, waitForTask]
  cases h1 : (c.DeleteDocument uid docID w.backend).1 with
  | err e => simp [Attempt.error, Attempt.calls, Mutation.toCall]
  | ok task =>
    simp only []
    cases h2 : (c.WaitForTask task (c.DeleteDocument uid docID w.backend).2).1 with
    | err e => simp [Attempt.error, Attempt.calls, Mutation.toCall]
    | ok o => simp [Attempt.error, Attempt.calls, Mutation.toCall]

/-- The world after one attempt of a mutation. -/
theorem processSingleRow_run {σ : Type} (env : Env) (c : Client σ) (row : RowRequest)
    (rule : Rule) (w : World σ) (h : (resolvePrimaryKeyField env rule).isSome) :
    MeilisearchEndpoint.processSingleRow env c row rule w =
      match streamMutationFor env row rule with
      | none => (.ret none, w)
      | some m =>
        (.ret (attempt c m w.backend).1.error,
         { backend := (attempt c m w.backend).2,
           calls := w.calls ++ (attempt c m w.backend).1.calls m }) := by
  obtain ⟨f, hf⟩ := Option.isSome_iff_exists.mp h
  unfold MeilisearchEndpoint.processSingleRow streamMutationFor
  simp only [code_document_eq]
  by_cases ha : row.Action = InsertAction ∨ row.Action = UpdateAction
  · simp only [ha, if_true]
    simp only [specDocument, hf, Option.map_some', submitAndWait_addDocuments]
  · simp only [ha, if_false]
    by_cases hd : row.Action = DeleteAction
    · simp only [hd, if_true, submitAndWait_deleteDocument]
    · simp only [hd, if_false]

/-! ## Dropped events -/

open MeilisearchEndpoint

theorem Consume_cons_mismatch {σ : Type} (env : Env) (c : Client σ) (pos : String × Nat)
    (row : RowRequest) (rows : List RowRequest) (rt : Runtime σ) (rule : Rule)
    (h1 : env.RuleIns row.RuleKey = some rule)
    (h2 : rule.TableColumnSize ≠ (row.Row.length : Int)) :
    Consume env c pos (row :: rows) rt = Consume env c pos rows rt := by
  rw [Consume]
  simp only [h1, h2, ne_eq, not_false_eq_true, if_true]

theorem Consume_cons_lua {σ : Type} (env : Env) (c : Client σ) (pos : String × Nat)
    (row : RowRequest) (rows : List RowRequest) (rt : Runtime σ) (rule : Rule)
    (h1 : env.RuleIns row.RuleKey = some rule) (h3 : env.LuaEnable rule = true) :
    ∃ rt1 : Runtime σ, rt1.world = rt.world ∧
      Consume env c pos (row :: rows) rt = Consume env c pos rows rt1 := by
  by_cases h2 : rule.TableColumnSize ≠ (row.Row.length : Int)
  · exact ⟨rt, rfl, Consume_cons_mismatch env c pos row rows rt rule h1 h2⟩
  · refine ⟨{ world := rt.world, metrics := rt.metrics ++ [(row.Action, row.RuleKey)] }, rfl, ?_⟩
    rw [Consume]
    simp only [h1, h3, if_true, if_neg h2]

theorem Consume_cons_congr {σ : Type} (env : Env) (c : Client σ) (pos : String × Nat)
    (row : RowRequest) (xs ys : List RowRequest)
    (P : Outcome (Option Error) × Runtime σ → Outcome (Option Error) × Runtime σ → Prop)
    (hrefl : ∀ o, P o o)
    (h : ∀ rt1 : Runtime σ, P (Consume env c pos xs rt1) (Consume env c pos ys rt1))
    (rt : Runtime σ) :
    P (Consume env c pos (row :: xs) rt) (Consume env c pos (row :: ys) rt) := by
  rw [Consume, Consume]
  cases env.RuleIns row.RuleKey with
  | none => exact hrefl _
  | some rule =>
    simp only []
    split
    · exact h _
    · split
      · exact h _
      · split
        · exact h _
        · exact hrefl _

theorem Consume_world_only {σ : Type} (env : Env) (c : Client σ) (pos : String × Nat)
    (rows : List RowRequest) :
    ∀ rt1 rt2 : Runtime σ, rt1.world = rt2.world →
      (Consume env c pos rows rt1).1 = (Consume env c pos rows rt2).1 ∧
      (Consume env c pos rows rt1).2.world = (Consume env c pos rows rt2).2.world := by
  induction rows with
  | nil => intro rt1 rt2 h; simp [Consume, h]
  | cons row rows ih =>
    intro rt1 rt2 h
    rw [Consume, Consume]
    cases env.RuleIns row.RuleKey with
    | none => exact ⟨rfl, h⟩
    | some rule =>
      simp only [h]
      split
      · exact ih _ _ h
      · split
        · exact ih _ _ rfl
        · split
          · exact ih _ _ rfl
          · exact ⟨rfl, rfl⟩

theorem Stock_eq_stockLoop {σ : Type} (env : Env) (c : Client σ) (rows : List RowRequest)
    (w : World σ) : Stock env c rows w = stockLoop env c rows 0 w := by
  unfold Stock
  cases rows with
  | nil => simp [stockLoop]
  | cons r rs => simp

theorem stockLoop_cons_mismatch {σ : Type} (env : Env) (c : Client σ)
    (row : RowRequest) (rows : List RowRequest) (n : Nat) (w : World σ) (rule : Rule)
    (h1 : env.RuleIns row.RuleKey = some rule)
    (h2 : rule.TableColumnSize ≠ (row.Row.length : Int)) :
    stockLoop env c (row :: rows) n w = stockLoop env c rows n w := by
  rw [stockLoop]
  simp only [h1, h2, ne_eq, not_false_eq_true, if_true]

theorem stockLoop_cons_lua {σ : Type} (env : Env) (c : Client σ)
    (row : RowRequest) (rows : List RowRequest) (n : Nat) (w : World σ) (rule : Rule)
    (h1 : env.RuleIns row.RuleKey = some rule) (h3 : env.LuaEnable rule = true) :
    stockLoop env c (row :: rows) n w = stockLoop env c rows n w := by
  rw [stockLoop]
  simp only [h1, h3, if_true, ite_self]

theorem stockLoop_cons_congr {σ : Type} (env : Env) (c : Client σ)
    (row : RowRequest) (xs ys : List RowRequest)
    (h : ∀ (n : Nat) (w1 : World σ), stockLoop env c xs n w1 = stockLoop env c ys n w1)
    (n : Nat) (w : World σ) :
    stockLoop env c (row :: xs) n w = stockLoop env c (row :: ys) n w := by
  rw [stockLoop, stockLoop]
  cases env.RuleIns row.RuleKey with
  | none => rfl
  | some rule => simp only [h]

theorem stockLoop_drop {σ : Type} (env : Env) (c : Client σ) (ev : RowRequest)
    (post : List RowRequest)
    (hev : ∀ (n : Nat) (w : World σ),
      stockLoop env c (ev :: post) n w = stockLoop env c post n w) :
    ∀ (pre : List RowRequest) (n : Nat) (w : World σ),
      stockLoop env c (pre ++ ev :: post) n w = stockLoop env c (pre ++ post) n w := by
  intro pre
  induction pre with
  | nil => intro n w; simpa using hev n w
  | cons r pre ih =>
    intro n w
    exact stockLoop_cons_congr env c r _ _ ih n w

/-- C4. Schema mismatch is dropped: an event whose number of column values differs from its
rule's table column count changes nothing.  `Consume` and `Stock` on a batch containing it end
exactly as on the batch without it: the same result (error or count), the same backend state, the
same log of client calls (so no mutation is submitted for it) and the same metrics. -/
theorem schema_mismatch_dropped {σ : Type} (env : Env) (c : Client σ) (pos : String × Nat)
    (pre post : List RowRequest) (ev : RowRequest) (rule : Rule)
    (hrule : env.RuleIns ev.RuleKey = some rule)
    (hmis : rule.TableColumnSize ≠ (ev.Row.length : Int)) :
    (∀ rt : Runtime σ,
      Consume env c pos (pre ++ ev :: post) rt = Consume env c pos (pre ++ post) rt) ∧
    (∀ w : World σ, Stock env c (pre ++ ev :: post) w = Stock env c (pre ++ post) w) := by
  constructor
  · induction pre with
    | nil =>
      intro rt
      simpa using Consume_cons_mismatch env c pos ev post rt rule hrule hmis
    | cons r pre ih =>
      intro rt
      exact Consume_cons_congr env c pos r _ _ (fun a b => a = b) (fun _ => rfl) ih rt
  · intro w
    rw [Stock_eq_stockLoop, Stock_eq_stockLoop]
    exact stockLoop_drop env c ev post
      (fun n w1 => stockLoop_cons_mismatch env c ev post n w1 rule hrule hmis) pre 0 w

/-- C9. Scripting is skipped: an event whose rule has scripting enabled is passed over.
`Consume` on a batch containing it returns the same result, leaves the same backend state and the
same log of client calls as on the batch without it (the metric update made before the scripting
check is the only trace of the event); `Stock` ends exactly as on the batch without it, count
included. -/
theorem scripting_skipped {σ : Type} (env : Env) (c : Client σ) (pos : String × Nat)
    (pre post : List RowRequest) (ev : RowRequest) (rule : Rule)
    (hrule : env.RuleIns ev.RuleKey = some rule)
    (hlua : env.LuaEnable rule = true) :
    (∀ rt : Runtime σ,
      (Consume env c pos (pre ++ ev :: post) rt).1 = (Consume env c pos (pre ++ post) rt).1 ∧
      (Consume env c pos (pre ++ ev :: post) rt).2.world =
        (Consume env c pos (pre ++ post) rt).2.world) ∧
    (∀ w : World σ, Stock env c (pre ++ ev :: post) w = Stock env c (pre ++ post) w) := by
  constructor
  · induction pre with
    | nil =>
      intro rt
      obtain ⟨rt1, hw, heq⟩ := Consume_cons_lua env c pos ev post rt rule hrule hlua
      simp only [List.nil_append, heq]
      exact Consume_world_only env c pos post rt1 rt hw
    | cons r pre ih =>
      intro rt
      exact Consume_cons_congr env c pos r _ _
        (fun a b => a.1 = b.1 ∧ a.2.world = b.2.world) (fun _ => ⟨rfl, rfl⟩) ih rt
  · intro w
    rw [Stock_eq_stockLoop, Stock_eq_stockLoop]
    exact stockLoop_drop env c ev post
      (fun n w1 => stockLoop_cons_lua env c ev post n w1 rule hrule hlua) pre 0 w

/-! ## The streaming path -/

theorem processSingleRow_some {σ : Type} (env : Env) (c : Client σ) (row : RowRequest)
    (rule : Rule) (w : World σ) (m : Mutation) (h : streamMutationFor env row rule = some m) :
    processSingleRow env c row rule w =
      (.ret (attempt c m w.backend).1.error,
       { backend := (attempt c m w.backend).2,
         calls := w.calls ++ (attempt c m w.backend).1.calls m }) := by
  unfold streamMutationFor at h
  unfold processSingleRow
  simp only [code_document_eq]
  by_cases ha : row.Action = InsertAction ∨ row.Action = UpdateAction
  · simp only [ha, if_true] at h ⊢
    cases hd : specDocument env row rule with
    | none => simp [hd] at h
    | some doc =>
      simp only [hd, Option.map_some', Option.some.injEq] at h
      subst h
      simp only [submitAndWait_addDocuments]
  · simp only [ha, if_false] at h ⊢
    by_cases hd : row.Action = DeleteAction
    · simp only [hd, if_true, Option.some.injEq] at h ⊢
      subst h
      simp only [submitAndWait_deleteDocument]
    · simp [hd] at h

theorem eligible_some {env : Env} {row : RowRequest} {rule : Rule}
    (h : eligible env row = some rule) :
    env.RuleIns row.RuleKey = some rule ∧ rule.TableColumnSize = (row.Row.length : Int) ∧
      env.LuaEnable rule = false := by
  unfold eligible at h
  cases hr : env.RuleIns row.RuleKey with
  | none => simp [hr] at h
  | some r =>
    simp only [hr] at h
    split at h
    · rename_i hc
      simp only [Option.some.injEq] at h
      subst h
      exact ⟨rfl, hc.1, hc.2⟩
    · simp at h

theorem eligible_none {env : Env} {row : RowRequest} {rule : Rule}
    (hr : env.RuleIns row.RuleKey = some rule) (h : eligible env row = none) :
    rule.TableColumnSize ≠ (row.Row.length : Int) ∨ env.LuaEnable rule = true := by
  unfold eligible at h
  simp only [hr] at h
  split at h
  · simp at h
  · rename_i hc
    by_cases h1 : rule.TableColumnSize = (row.Row.length : Int)
    · right
      cases hl : env.LuaEnable rule with
      | true => rfl
      | false => exact absurd ⟨h1, hl⟩ hc
    · exact Or.inl h1

theorem wellFormed_some {env : Env} {row : RowRequest} (h : wellFormed env row = true) :
    ∃ rule, env.RuleIns row.RuleKey = some rule ∧ (resolvePrimaryKeyField env rule).isSome := by
  unfold wellFormed at h
  cases hr : env.RuleIns row.RuleKey with
  | none => simp [hr] at h
  | some r => exact ⟨r, rfl, by simpa [hr] using h⟩

/-- One iteration of the loop of `Consume` on a well-formed event. -/
theorem Consume_cons_run {σ : Type} (env : Env) (c : Client σ) (pos : String × Nat)
    (row : RowRequest) (rows : List RowRequest) (rt : Runtime σ)
    (hwf : wellFormed env row = true) :
    ∃ metrics : List (String × String),
      Consume env c pos (row :: rows) rt =
        match streamMutation env row with
        | none => Consume env c pos rows { world := rt.world, metrics := metrics }
        | some m =>
          match (attempt c m rt.world.backend).1.error with
          | none =>
            Consume env c pos rows
              { world := { backend := (attempt c m rt.world.backend).2,
                           calls := rt.world.calls ++ (attempt c m rt.world.backend).1.calls m },
                metrics := metrics }
          | some e =>
            (.ret (some e),
              { world := { backend := (attempt c m rt.world.backend).2,
                           calls := rt.world.calls ++ (attempt c m rt.world.backend).1.calls m },
                metrics := metrics }) := by
  obtain ⟨rule, hr, hres⟩ := wellFormed_some hwf
  cases he : eligible env row with
  | none =>
    simp only [streamMutation, he]
    rcases eligible_none hr he with h2 | h3
    · exact ⟨rt.metrics, Consume_cons_mismatch env c pos row rows rt rule hr h2⟩
    · obtain ⟨rt1, hw, heq⟩ := Consume_cons_lua env c pos row rows rt rule hr h3
      refine ⟨rt1.metrics, ?_⟩
      rw [heq, ← hw]
  | some rule1 =>
    obtain ⟨hr1, hsize, hlua⟩ := eligible_some he
    have : rule1 = rule := by rw [hr] at hr1; exact (Option.some.inj hr1).symm
    subst this
    refine ⟨rt.metrics ++ [(row.Action, row.RuleKey)], ?_⟩
    simp only [streamMutation, he]
    rw [Consume]
    simp only [hr, hsize, hlua, ne_eq, not_true_eq_false, if_false, Bool.false_eq_true]
    rw [processSingleRow_run env c row rule1 rt.world hres]
    cases hm : streamMutationFor env row rule1 with
    | none => simp only []
    | some m =>
      simp only []
      cases (attempt c m rt.world.backend).1.error <;> simp only []

/-- The streaming path on a prefix whose events all succeed, then an event that fails. -/
theorem Consume_run_to_failure {σ : Type} (env : Env) (c : Client σ) (pos : String × Nat)
    (ev : RowRequest) (post : List RowRequest) (m : Mutation) (e : Error)
    (hm : streamMutation env ev = some m) :
    ∀ (pre : List RowRequest) (rt : Runtime σ),
      (∀ row ∈ pre, wellFormed env row = true) →
      (∀ a ∈ (attempts c (pre.filterMap (streamMutation env)) rt.world.backend).1,
        a.error = none) →
      (attempt c m
        (attempts c (pre.filterMap (streamMutation env)) rt.world.backend).2).1.error = some e →
      (Consume env c pos (pre ++ ev :: post) rt).1 = .ret (some e) ∧
      (Consume env c pos (pre ++ ev :: post) rt).2.world.calls =
        rt.world.calls ++
          (traceOf (pre.filterMap (streamMutation env))
            (attempts c (pre.filterMap (streamMutation env)) rt.world.backend).1 ++
          (attempt c m
            (attempts c (pre.filterMap (streamMutation env)) rt.world.backend).2).1.calls m) ∧
      (Consume env c pos (pre ++ ev :: post) rt).2.world.backend =
        (attempt c m (attempts c (pre.filterMap (streamMutation env)) rt.world.backend).2).2 := by
  intro pre
  induction pre with
  | nil =>
    intro rt _ _ hev
    simp only [List.filterMap_nil, attempts, List.nil_append, traceOf] at hev ⊢
    cases he : eligible env ev with
    | none => simp [streamMutation, he] at hm
    | some rule =>
      obtain ⟨hr, hsize, hlua⟩ := eligible_some he
      have hm1 : streamMutationFor env ev rule = some m := by
        simpa [streamMutation, he] using hm
      rw [Consume]
      simp only [hr, hsize, hlua, ne_eq, not_true_eq_false, if_false, Bool.false_eq_true]
      rw [processSingleRow_some env c ev rule rt.world m hm1]
      simp only [hev, and_self]
  | cons row pre ih =>
    intro rt hwf hpre hev
    have hwfrow := hwf row (List.mem_cons_self _ _)
    have hwfpre : ∀ r ∈ pre, wellFormed env r = true :=
      fun r hr => hwf r (List.mem_cons_of_mem _ hr)
    obtain ⟨metrics, hstep⟩ := Consume_cons_run env c pos row (pre ++ ev :: post) rt hwfrow
    rw [List.cons_append, hstep]
    cases hrow : streamMutation env row with
    | none =>
      simp only [List.filterMap_cons, hrow] at hpre hev ⊢
      exact ih { world := rt.world, metrics := metrics } hwfpre hpre hev
    | some m0 =>
      simp only [List.filterMap_cons, hrow, attempts, List.mem_cons, forall_eq_or_imp] at hpre hev ⊢
      simp only [hpre.1, traceOf, List.append_assoc]
      have := ih { world := { backend := (attempt c m0 rt.world.backend).2,
                              calls := rt.world.calls ++ (attempt c m0 rt.world.backend).1.calls m0 },
                   metrics := metrics } hwfpre hpre.2 hev
      simpa only [List.append_assoc] using this

/-! ## The bulk path -/

theorem attempts_length {σ : Type} (c : Client σ) (ms : List Mutation) :
    ∀ s : σ, (attempts c ms s).1.length = ms.length := by
  induction ms with
  | nil => intro s; rfl
  | cons m ms ih => intro s; simp [attempts, ih]

theorem bulkMutation_of_eligible {env : Env} {row : RowRequest} {rule : Rule} {f : String}
    (he : eligible env row = some rule) (hf : resolvePrimaryKeyField env rule = some f) :
    bulkMutation env row =
      some (.upsert rule.MeilisearchIndex
        ((env.rowMap row rule false).set f (env.primaryKey row rule))) := by
  simp [bulkMutation, he, specDocument, hf]

/-- The loop of `Stock` on well-formed events: every eligible event is attempted, in order, and
the counter grows by the number of attempts that succeeded. -/
theorem stockLoop_run {σ : Type} (env : Env) (c : Client σ) (rows : List RowRequest) :
    (∀ row ∈ rows, wellFormed env row = true) →
    ∀ (n : Nat) (w : World σ),
      stockLoop env c rows n w =
        (.ret (n + ((attempts c (rows.filterMap (bulkMutation env)) w.backend).1.filter
                  Attempt.succeeded).length),
         { backend := (attempts c (rows.filterMap (bulkMutation env)) w.backend).2,
           calls := w.calls ++ traceOf (rows.filterMap (bulkMutation env))
             (attempts c (rows.filterMap (bulkMutation env)) w.backend).1 }) := by
  induction rows with
  | nil => intro _ n w; simp [stockLoop, attempts, traceOf]
  | cons row rows ih =>
    intro hwf n w
    have hwfrows : ∀ r ∈ rows, wellFormed env r = true :=
      fun r hr => hwf r (List.mem_cons_of_mem _ hr)
    obtain ⟨rule, hr, hres⟩ := wellFormed_some (hwf row (List.mem_cons_self _ _))
    obtain ⟨f, hf⟩ := Option.isSome_iff_exists.mp hres
    cases he : eligible env row with
    | none =>
      have hb : bulkMutation env row = none := by simp [bulkMutation, he]
      simp only [List.filterMap_cons, hb]
      rcases eligible_none hr he with h2 | h3
      · rw [stockLoop_cons_mismatch env c row rows n w rule hr h2]
        exact ih hwfrows n w
      · rw [stockLoop_cons_lua env c row rows n w rule hr h3]
        exact ih hwfrows n w
    | some rule1 =>
      obtain ⟨hr1, hsize, hlua⟩ := eligible_some he
      have : rule1 = rule := by rw [hr] at hr1; exact (Option.some.inj hr1).symm
      subst this
      simp only [List.filterMap_cons, bulkMutation_of_eligible he hf, attempts, traceOf]
      rw [stockLoop]
      simp only [hr, hsize, hlua, ne_eq, not_true_eq_false, if_false, Bool.false_eq_true,
        code_document_eq, specDocument, hf, Option.map_some', submitAndWait_addDocuments]
      cases hatt : (attempt c (.upsert rule1.MeilisearchIndex
          ((env.rowMap row rule1 false).set f (env.primaryKey row rule1))) w.backend).1.error with
      | none =>
        simp only []
        rw [ih hwfrows]
        simp [List.filter_cons, Attempt.succeeded, hatt, List.append_assoc, Nat.add_assoc,
          Nat.add_comm 1]
      | some e =>
        simp only []
        rw [ih hwfrows]
        simp [List.filter_cons, Attempt.succeeded, hatt, List.append_assoc]

theorem submission_toCall (m : Mutation) (r : Resp TaskUID) :
    (m.toCall r).submission = some m := by
  cases m <;> rfl

theorem traceOf_submissions :
    ∀ (ms : List Mutation) (as : List Attempt), as.length = ms.length →
      (traceOf ms as).filterMap Call.submission = ms := by
  intro ms
  induction ms with
  | nil => intro as _; cases as <;> rfl
  | cons m ms ih =>
    intro as h
    cases as with
    | nil => simp at h
    | cons a as =>
      simp only [List.length_cons, Nat.add_right_cancel_iff] at h
      simp only [traceOf, List.filterMap_append, ih as h]
      cases a <;> cases m <;> simp [Attempt.calls, Mutation.toCall, Call.submission]

theorem traceOf_no_delete :
    ∀ (ms : List Mutation) (as : List Attempt),
      (∀ m ∈ ms, ∃ uid doc, m = Mutation.upsert uid doc) →
      ∀ call ∈ traceOf ms as, call.isDeleteDocument = false := by
  intro ms
  induction ms with
  | nil => intro as _ call h; cases as <;> simp [traceOf] at h
  | cons m ms ih =>
    intro as hup call h
    cases as with
    | nil => simp [traceOf] at h
    | cons a as =>
      simp only [traceOf, List.mem_append] at h
      rcases h with h | h
      · obtain ⟨uid, doc, rfl⟩ := hup m (List.mem_cons_self _ _)
        cases a <;> simp [Attempt.calls, Mutation.toCall] at h <;>
          rcases h with rfl | rfl <;> rfl
      · exact ih as (fun m1 hm1 => hup m1 (List.mem_cons_of_mem _ hm1)) call h

theorem bulkMutation_upsert (env : Env) (rows : List RowRequest) :
    ∀ m ∈ rows.filterMap (bulkMutation env), ∃ uid doc, m = Mutation.upsert uid doc := by
  intro m hm
  obtain ⟨row, _, hrow⟩ := List.mem_filterMap.mp hm
  unfold bulkMutation at hrow
  cases he : eligible env row with
  | none => simp [he] at hrow
  | some rule =>
    simp only [he] at hrow
    cases hd : specDocument env row rule with
    | none => simp [hd] at hrow
    | some doc => exact ⟨rule.MeilisearchIndex, doc, by simpa [hd] using hrow.symm⟩

/-! ## Provisioning -/

theorem submitAndWait_preserves {σ : Type} (c : Client σ) (R : World σ → World σ → Prop)
    (htrans : ∀ a b d, R a b → R b d → R a d)
    (submit : World σ → Resp TaskUID × World σ)
    (hsub : ∀ w, R w (submit w).2)
    (hwait : ∀ t w, R w (waitForTask c t w).2) (w : World σ) :
    R w (submitAndWait c submit w).2 := by
  unfold submitAndWait
  cases (submit w).1 with
  | err e => exact hsub w
  | ok task =>
    simp only []
    cases (waitForTask c task (submit w).2).1 with
    | err e => exact htrans _ _ _ (hsub w) (hwait _ _)
    | ok o => exact htrans _ _ _ (hsub w) (hwait _ _)

theorem andThen_preserves {σ : Type} (R : World σ → World σ → Prop)
    (htrans : ∀ a b d, R a b → R b d → R a d)
    (w : World σ) (r : Outcome (Option Error) × World σ)
    (k : World σ → Outcome (Option Error) × World σ)
    (hr : R w r.2) (hk : ∀ w1, R w1 (k w1).2) :
    R w (andThen r k).2 := by
  unfold andThen
  split
  · exact htrans _ _ _ hr (hk _)
  · exact hr

theorem applyAttrs_preserves {σ : Type} (c : Client σ) (R : World σ → World σ → Prop)
    (hrefl : ∀ w, R w w) (htrans : ∀ a b d, R a b → R b d → R a d)
    (cat : AttrCategory) (uid config : String)
    (hwait : ∀ t w, R w (waitForTask c t w).2)
    (hupd : config ≠ "" → ∀ attrs w, R w (updateAttributes c cat uid attrs w).2)
    (w : World σ) :
    R w (applyAttrs c cat uid config w).2 := by
  unfold applyAttrs
  by_cases h : config ≠ ""
  · rw [if_pos h]
    exact submitAndWait_preserves c R htrans _ (hupd h _) hwait w
  · rw [if_neg h]
    exact hrefl w

theorem updateAttributes_calls {σ : Type} (c : Client σ) (cat : AttrCategory) (uid : String)
    (attrs : List String) (w : World σ) :
    ∃ r, (updateAttributes c cat uid attrs w).2.calls =
      w.calls ++ [Call.updateAttributes cat uid attrs r] := by
  cases cat <;> exact ⟨_, rfl⟩

theorem mem_update_backend (str : Value → String) (cat : AttrCategory) (uid : String)
    (attrs : List String) (w : World MemBackend) :
    (updateAttributes (memClient str) cat uid attrs w).2.backend =
      (MemBackend.update cat uid attrs w.backend).2 := by
  cases cat <;> rfl

theorem sliceGet_length_append {α : Type} (xs : List α) (x : α) :
    sliceGet (xs ++ [x]) (xs.length : Int) = some x := by
  unfold sliceGet
  simp

theorem submitAndWait_mem (str : Value → String)
    (submit : World MemBackend → Resp TaskUID × World MemBackend) (w : World MemBackend)
    (o : JobOutcome) (ts : List JobOutcome)
    (h1 : (submit w).1 = .ok (ts.length : Int))
    (h2 : (submit w).2.backend.tasks = ts ++ [o]) :
    submitAndWait (memClient str) submit w =
      (none, { backend := (submit w).2.backend,
               calls := (submit w).2.calls ++ [Call.waitForTask (ts.length : Int) (.ok o)] }) := by
  unfold submitAndWait
  simp only [h1, waitForTask, World.step, memClient, h2, sliceGet_length_append]

theorem andThen_ok {σ : Type} (r : Outcome (Option Error) × World σ)
    (k : World σ → Outcome (Option Error) × World σ) (h : r.1 = .ret none) :
    andThen r k = k r.2 := by
  unfold andThen
  simp only [h]

theorem withIndex_same (s : MemBackend) (uid : String) (ix : IndexState)
    (h : s.indexes uid = some ix) : s.withIndex uid ix = s.indexes := by
  funext u
  unfold MemBackend.withIndex
  by_cases hu : u = uid
  · simp [hu, h]
  · simp [hu]

theorem withIndex_withIndex (s s1 : MemBackend) (uid : String) (ix1 ix2 : IndexState)
    (h : s1.indexes = s.withIndex uid ix1) : s1.withIndex uid ix2 = s.withIndex uid ix2 := by
  funext u
  unfold MemBackend.withIndex
  by_cases hu : u = uid
  · simp [hu]
  · simp [hu, h, MemBackend.withIndex]

/-- One attribute block on the reference backend, on an index that exists. -/
theorem applyAttrs_mem (str : Value → String) (rule : Rule) (cat : AttrCategory) (uid : String)
    (w : World MemBackend) (ix : IndexState) (h : w.backend.indexes uid = some ix) :
    (applyAttrs (memClient str) cat uid (rule.attrConfig cat) w).1 = .ret none ∧
    (applyAttrs (memClient str) cat uid (rule.attrConfig cat) w).2.backend.indexes =
      w.backend.withIndex uid (ix.configureCat rule cat) ∧
    ∃ new, (applyAttrs (memClient str) cat uid (rule.attrConfig cat) w).2.calls = w.calls ++ new ∧
      ∀ call ∈ new, call.isCreateIndex = false := by
  unfold applyAttrs IndexState.configureCat
  by_cases hc : rule.attrConfig cat ≠ ""
  · rw [if_pos hc, if_pos hc]
    have hb := mem_update_backend str cat uid
      ((Split (rule.attrConfig cat) ',').map TrimSpace) w
    have h1 : (updateAttributes (memClient str) cat uid
        ((Split (rule.attrConfig cat) ',').map TrimSpace) w).1 =
        .ok (w.backend.tasks.length : Int) := by
      cases cat <;> simp [updateAttributes, World.step, memClient, MemBackend.update, h,
        MemBackend.enqueue]
    obtain ⟨r, hcalls⟩ := updateAttributes_calls (memClient str) cat uid
      ((Split (rule.attrConfig cat) ',').map TrimSpace) w
    have h2 : (updateAttributes (memClient str) cat uid
        ((Split (rule.attrConfig cat) ',').map TrimSpace) w).2.backend.tasks =
        w.backend.tasks ++ [.succeeded] := by
      rw [hb]; simp [MemBackend.update, h, MemBackend.enqueue]
    dsimp only
    rw [submitAndWait_mem str _ w .succeeded w.backend.tasks h1 h2]
    refine ⟨rfl, ?_, ?_⟩
    · simp only [hb]
      simp [MemBackend.update, h, MemBackend.enqueue]
    · refine ⟨[Call.updateAttributes cat uid ((Split (rule.attrConfig cat) ',').map TrimSpace) r,
        Call.waitForTask (w.backend.tasks.length : Int) (.ok .succeeded)], ?_, ?_⟩
      · simp [hcalls]
      · intro call hcall
        simp only [List.mem_cons, List.mem_singleton, List.not_mem_nil, or_false] at hcall
        rcases hcall with rfl | rfl <;> rfl
  · rw [if_neg hc, if_neg hc]
    exact ⟨rfl, (withIndex_same _ _ _ h).symm, [], by simp, by simp⟩

/-- The three attribute blocks on the reference backend, on an index that exists. -/
theorem attrBlocks_mem (str : Value → String) (rule : Rule) (uid : String)
    (w : World MemBackend) (ix : IndexState) (h : w.backend.indexes uid = some ix) :
    (andThen (applyAttrs (memClient str) .searchable uid rule.MeilisearchSearchableAttrs w)
      fun w2 =>
      andThen (applyAttrs (memClient str) .filterable uid rule.MeilisearchFilterableAttrs w2)
      fun w3 => applyAttrs (memClient str) .sortable uid rule.MeilisearchSortableAttrs w3).1
      = .ret none ∧
    (andThen (applyAttrs (memClient str) .searchable uid rule.MeilisearchSearchableAttrs w)
      fun w2 =>
      andThen (applyAttrs (memClient str) .filterable uid rule.MeilisearchFilterableAttrs w2)
      fun w3 => applyAttrs (memClient str) .sortable uid
        rule.MeilisearchSortableAttrs w3).2.backend.indexes
      = w.backend.withIndex uid (ix.configure rule) ∧
    ∃ new,
      (andThen (applyAttrs (memClient str) .searchable uid rule.MeilisearchSearchableAttrs w)
        fun w2 =>
        andThen (applyAttrs (memClient str) .filterable uid rule.MeilisearchFilterableAttrs w2)
        fun w3 => applyAttrs (memClient str) .sortable uid
          rule.MeilisearchSortableAttrs w3).2.calls = w.calls ++ new ∧
      ∀ call ∈ new, call.isCreateIndex = false := by
  obtain ⟨a1, a2, n1, a3, a4⟩ := applyAttrs_mem str rule .searchable uid w ix h
  have hx1 : (applyAttrs (memClient str) .searchable uid rule.MeilisearchSearchableAttrs
      w).2.backend.indexes uid = some (ix.configureCat rule .searchable) := by
    have := congrFun a2 uid
    simpa [MemBackend.withIndex, Rule.attrConfig] using this
  obtain ⟨b1, b2, n2, b3, b4⟩ := applyAttrs_mem str rule .filterable uid _ _ hx1
  have hb2 := withIndex_withIndex w.backend _ uid _
    ((ix.configureCat rule .searchable).configureCat rule .filterable) a2
  have hx2 : (applyAttrs (memClient str) .filterable uid rule.MeilisearchFilterableAttrs
      (applyAttrs (memClient str) .searchable uid rule.MeilisearchSearchableAttrs
        w).2).2.backend.indexes uid =
      some ((ix.configureCat rule .searchable).configureCat rule .filterable) := by
    have := congrFun (b2.trans hb2) uid
    simpa [MemBackend.withIndex, Rule.attrConfig] using this
  obtain ⟨c1, c2, n3, c3, c4⟩ := applyAttrs_mem str rule .sortable uid _ _ hx2
  have hc2 := withIndex_withIndex w.backend _ uid _ (ix.configure rule) (b2.trans hb2)
  simp only [Rule.attrConfig] at a1 a3 b1 b3 c1 c3 c2
  rw [andThen_ok _ _ a1, andThen_ok _ _ b1]
  refine ⟨c1, c2.trans hc2, n1 ++ (n2 ++ n3), ?_, ?_⟩
  · rw [c3, b3, a3]; simp [List.append_assoc]
  · intro call hcall
    simp only [List.mem_append] at hcall
    rcases hcall with hh | hh | hh
    · exact a4 call hh
    · exact b4 call hh
    · exact c4 call hh

theorem getIndex_mem_some (str : Value → String) (uid : String) (w : World MemBackend)
    (ix : IndexState) (h : w.backend.indexes uid = some ix) :
    getIndex (memClient str) uid w =
      (none, { backend := w.backend, calls := w.calls ++ [Call.getIndex uid none] }) := by
  simp [getIndex, World.step, memClient, h]

theorem getIndex_mem_none (str : Value → String) (uid : String) (w : World MemBackend)
    (h : w.backend.indexes uid = none) :
    getIndex (memClient str) uid w =
      (some "index_not_found",
        { backend := w.backend, calls := w.calls ++ [Call.getIndex uid (some "index_not_found")] }) := by
  simp [getIndex, World.step, memClient, h]

theorem configure_idem (rule : Rule) (ix : IndexState) :
    (ix.configure rule).configure rule = ix.configure rule := by
  simp only [IndexState.configure, IndexState.configureCat]
  split_ifs <;> rfl

/-- Provisioning on the reference backend when the index exists: no error, no index creation,
and the index gets the configured attribute lists. -/
theorem provision_existing (env : Env) (str : Value → String) (rule : Rule)
    (w : World MemBackend) (ix : IndexState)
    (h : w.backend.indexes rule.MeilisearchIndex = some ix) :
    (createOrUpdateIndex env (memClient str) rule w).1 = .ret none ∧
    (createOrUpdateIndex env (memClient str) rule w).2.backend.indexes =
      w.backend.withIndex rule.MeilisearchIndex (ix.configure rule) ∧
    ∃ new, (createOrUpdateIndex env (memClient str) rule w).2.calls = w.calls ++ new ∧
      ∀ call ∈ new, call.isCreateIndex = false := by
  unfold createOrUpdateIndex
  dsimp only
  rw [getIndex_mem_some str _ w ix h]
  dsimp only
  rw [andThen_ok _ _ rfl]
  obtain ⟨a1, a2, n, a3, a4⟩ := attrBlocks_mem str rule rule.MeilisearchIndex
    { backend := w.backend, calls := w.calls ++ [Call.getIndex rule.MeilisearchIndex none] } ix h
  refine ⟨a1, a2, Call.getIndex rule.MeilisearchIndex none :: n, ?_, ?_⟩
  · rw [a3]; simp
  · intro call hcall
    rcases List.mem_cons.mp hcall with rfl | hh
    · rfl
    · exact a4 call hh

/-- Provisioning on the reference backend when the index is absent: no error, and the index is
created with the resolved primary-key field and gets the configured attribute lists. -/
theorem provision_absent (env : Env) (str : Value → String) (rule : Rule)
    (w : World MemBackend) (f : String)
    (h : w.backend.indexes rule.MeilisearchIndex = none)
    (hf : resolvePrimaryKeyField env rule = some f) :
    (createOrUpdateIndex env (memClient str) rule w).1 = .ret none ∧
    (createOrUpdateIndex env (memClient str) rule w).2.backend.indexes =
      w.backend.withIndex rule.MeilisearchIndex
        (IndexState.configure rule
          { primaryKey := f, searchable := [], filterable := [], sortable := [],
            docs := fun _ => none }) := by
  unfold createOrUpdateIndex
  dsimp only
  rw [getIndex_mem_none str _ w h]
  dsimp only
  rw [resolve_eq_code, hf]
  dsimp only
  have h1 : (createIndex (memClient str) rule.MeilisearchIndex f
      { backend := w.backend,
        calls := w.calls ++ [Call.getIndex rule.MeilisearchIndex (some "index_not_found")] }).1 =
      .ok (w.backend.tasks.length : Int) := by
    simp [createIndex, World.step, memClient, h, MemBackend.enqueue]
  have h2 : (createIndex (memClient str) rule.MeilisearchIndex f
      { backend := w.backend,
        calls := w.calls ++ [Call.getIndex rule.MeilisearchIndex
          (some "index_not_found")] }).2.backend.tasks =
      w.backend.tasks ++ [.succeeded] := by
    simp [createIndex, World.step, memClient, h, MemBackend.enqueue]
  have h3 : (createIndex (memClient str) rule.MeilisearchIndex f
      { backend := w.backend,
        calls := w.calls ++ [Call.getIndex rule.MeilisearchIndex
          (some "index_not_found")] }).2.backend.indexes =
      w.backend.withIndex rule.MeilisearchIndex
        { primaryKey := f, searchable := [], filterable := [], sortable := [],
          docs := fun _ => none } := by
    simp [createIndex, World.step, memClient, h, MemBackend.enqueue]
  rw [submitAndWait_mem str _ _ .succeeded w.backend.tasks h1 h2]
  rw [andThen_ok _ _ rfl]
  have hx : (createIndex (memClient str) rule.MeilisearchIndex f
      { backend := w.backend,
        calls := w.calls ++ [Call.getIndex rule.MeilisearchIndex
          (some "index_not_found")] }).2.backend.indexes rule.MeilisearchIndex =
      some { primaryKey := f, searchable := [], filterable := [], sortable := [],
             docs := fun _ => none } := by
    rw [h3]; simp [MemBackend.withIndex]
  obtain ⟨a1, a2, -⟩ := attrBlocks_mem str rule rule.MeilisearchIndex
    { backend := (createIndex (memClient str) rule.MeilisearchIndex f
        { backend := w.backend,
          calls := w.calls ++ [Call.getIndex rule.MeilisearchIndex
            (some "index_not_found")] }).2.backend,
      calls := (createIndex (memClient str) rule.MeilisearchIndex f
        { backend := w.backend,
          calls := w.calls ++ [Call.getIndex rule.MeilisearchIndex
            (some "index_not_found")] }).2.calls ++
        [Call.waitForTask (w.backend.tasks.length : Int) (.ok .succeeded)] } _ hx
  exact ⟨a1, a2.trans (withIndex_withIndex w.backend _ _ _ _ h3)⟩

/-- C6. Provisioning idempotence: on the reference backend, for a rule whose primary-key field
resolves, two calls of `createOrUpdateIndex` in sequence both return no error, the second call
makes no index-creation call, and the configuration of every index (primary-key field and the
three attribute lists) after the second call is the configuration after the first. -/
theorem provisioning_idempotent (env : Env) (str : Value → String) (rule : Rule)
    (w : World MemBackend) (hwf : (resolvePrimaryKeyField env rule).isSome) :
    (createOrUpdateIndex env (memClient str) rule w).1 = .ret none ∧
    (createOrUpdateIndex env (memClient str) rule
      (createOrUpdateIndex env (memClient str) rule w).2).1 = .ret none ∧
    (∃ new,
      (createOrUpdateIndex env (memClient str) rule
        (createOrUpdateIndex env (memClient str) rule w).2).2.calls =
        (createOrUpdateIndex env (memClient str) rule w).2.calls ++ new ∧
      ∀ call ∈ new, call.isCreateIndex = false) ∧
    (∀ uid : String,
      ((createOrUpdateIndex env (memClient str) rule
        (createOrUpdateIndex env (memClient str) rule w).2).2.backend.indexes uid).map
          IndexState.config =
      ((createOrUpdateIndex env (memClient str) rule w).2.backend.indexes uid).map
          IndexState.config) := by
  obtain ⟨f, hf⟩ := Option.isSome_iff_exists.mp hwf
  have first : ∃ ix0 : IndexState,
      (createOrUpdateIndex env (memClient str) rule w).1 = .ret none ∧
      (createOrUpdateIndex env (memClient str) rule w).2.backend.indexes rule.MeilisearchIndex =
        some (ix0.configure rule) := by
    cases h : w.backend.indexes rule.MeilisearchIndex with
    | some ix =>
      obtain ⟨a1, a2, -⟩ := provision_existing env str rule w ix h
      exact ⟨ix, a1, by rw [a2]; simp [MemBackend.withIndex]⟩
    | none =>
      obtain ⟨a1, a2⟩ := provision_absent env str rule w f h hf
      exact ⟨{ primaryKey := f, searchable := [], filterable := [], sortable := [],
               docs := fun _ => none }, a1, by rw [a2]; simp [MemBackend.withIndex]⟩
  obtain ⟨ix0, r1, hx⟩ := first
  obtain ⟨r2, hidx, hnew⟩ := provision_existing env str rule _ _ hx
  refine ⟨r1, r2, hnew, ?_⟩
  intro uid
  rw [hidx, configure_idem, withIndex_same _ _ _ hx]

/-! ## The primary-key field -/

theorem wellFormed_of {env : Env} {row : RowRequest} {rule : Rule} {f : String}
    (hr : env.RuleIns row.RuleKey = some rule) (hf : resolvePrimaryKeyField env rule = some f) :
    wellFormed env row = true := by
  simp [wellFormed, hr, hf]

theorem attempt_calls_head (m : Mutation) (a : Attempt) :
    ∃ r tl, a.calls m = m.toCall r :: tl := by
  cases a <;> exact ⟨_, _, rfl⟩

theorem submitAndWait_createIndex_calls {σ : Type} (c : Client σ) (uid pk : String)
    (w : World σ) :
    ∃ r tl, (submitAndWait c (createIndex c uid pk) w).2.calls =
        w.calls ++ Call.createIndex uid pk r :: tl ∧
      ∀ call ∈ tl, call.isCreateIndex = false := by
  unfold submitAndWait
  cases h : (createIndex c uid pk w).1 with
  | err e => exact ⟨(c.CreateIndex uid pk w.backend).1, [], rfl, by simp⟩
  | ok task =>
    dsimp only
    have hcalls : (waitForTask c task (createIndex c uid pk w).2).2.calls =
        w.calls ++ Call.createIndex uid pk (c.CreateIndex uid pk w.backend).1 ::
          [Call.waitForTask task (c.WaitForTask task (createIndex c uid pk w).2.backend).1] := by
      simp only [waitForTask, World.step, createIndex, List.append_assoc, List.singleton_append]
    have hno : ∀ call ∈
        [Call.waitForTask task (c.WaitForTask task (createIndex c uid pk w).2.backend).1],
        call.isCreateIndex = false := by
      intro call hc; rw [List.mem_singleton.mp hc]; rfl
    cases (waitForTask c task (createIndex c uid pk w).2).1 with
    | err e => exact ⟨_, _, hcalls, hno⟩
    | ok o => exact ⟨_, _, hcalls, hno⟩

/-- The attribute blocks of `createOrUpdateIndex` make no index-creation call. -/
theorem attrBlocks_no_create {σ : Type} (c : Client σ) (rule : Rule) (uid : String)
    (w : World σ) :
    ∃ new,
      (andThen (applyAttrs c .searchable uid rule.MeilisearchSearchableAttrs w) fun w2 =>
        andThen (applyAttrs c .filterable uid rule.MeilisearchFilterableAttrs w2) fun w3 =>
        applyAttrs c .sortable uid rule.MeilisearchSortableAttrs w3).2.calls = w.calls ++ new ∧
      ∀ call ∈ new, call.isCreateIndex = false := by
  have hrefl : ∀ a : World σ,
      ∃ new, a.calls = a.calls ++ new ∧ ∀ call ∈ new, call.isCreateIndex = false :=
    fun a => ⟨[], by simp⟩
  have htrans : ∀ a b d : World σ,
      (∃ new, b.calls = a.calls ++ new ∧ ∀ call ∈ new, call.isCreateIndex = false) →
      (∃ new, d.calls = b.calls ++ new ∧ ∀ call ∈ new, call.isCreateIndex = false) →
      ∃ new, d.calls = a.calls ++ new ∧ ∀ call ∈ new, call.isCreateIndex = false := by
    rintro a b d ⟨n1, h1, p1⟩ ⟨n2, h2, p2⟩
    refine ⟨n1 ++ n2, by rw [h2, h1, List.append_assoc], ?_⟩
    intro call hc
    rcases List.mem_append.mp hc with h | h
    · exact p1 call h
    · exact p2 call h
  have hwait : ∀ (t : TaskUID) (a : World σ),
      ∃ new, (waitForTask c t a).2.calls = a.calls ++ new ∧
        ∀ call ∈ new, call.isCreateIndex = false :=
    fun t a => ⟨[_], rfl, by simp [Call.isCreateIndex]⟩
  have hupd : ∀ (cat : AttrCategory) (attrs : List String) (a : World σ),
      ∃ new, (updateAttributes c cat uid attrs a).2.calls = a.calls ++ new ∧
        ∀ call ∈ new, call.isCreateIndex = false := by
    intro cat attrs a
    obtain ⟨r, hr⟩ := updateAttributes_calls c cat uid attrs a
    exact ⟨[_], hr, by simp [Call.isCreateIndex]⟩
  refine andThen_preserves _ htrans w _ _ ?_ (fun w2 => ?_)
  · exact applyAttrs_preserves c _ hrefl htrans _ _ _ hwait (fun _ => hupd _) w
  · refine andThen_preserves _ htrans w2 _ _ ?_ (fun w3 => ?_)
    · exact applyAttrs_preserves c _ hrefl htrans _ _ _ hwait (fun _ => hupd _) w2
    · exact applyAttrs_preserves c _ hrefl htrans _ _ _ hwait (fun _ => hupd _) w3

theorem andThen_calls {σ : Type} (r : Outcome (Option Error) × World σ)
    (k : World σ → Outcome (Option Error) × World σ) (P : Call → Prop)
    (hk : ∀ w1, ∃ new, (k w1).2.calls = w1.calls ++ new ∧ ∀ call ∈ new, P call) :
    ∃ new, (andThen r k).2.calls = r.2.calls ++ new ∧ ∀ call ∈ new, P call := by
  unfold andThen
  split
  · exact hk _
  · exact ⟨[], by simp, by simp⟩

/-- C7. Identity field precedence: let `f` be the primary-key field of a rule resolved in the
order (1) the explicit override when non-empty, (2) `"id"` for a composite key, (3) the wrapped
name of the table's primary-key column.  Then on any backend (a) when the index is reported
absent, `createOrUpdateIndex` creates it with primary key `f`, and makes no other index creation;
(b) `processSingleRow` on an Insert or Update submits a document whose field `f` holds the
identity `primaryKey(row, rule)`; (c) `Stock` on an event that passes its checks submits a
document whose field `f` holds that identity. -/
theorem primary_key_field_consistent {σ : Type} (env : Env) (c : Client σ) (rule : Rule)
    (f : String) (hf : resolvePrimaryKeyField env rule = some f) :
    ((rule.MeilisearchPrimaryKey ≠ "" → f = rule.MeilisearchPrimaryKey) ∧
     (rule.MeilisearchPrimaryKey = "" → rule.IsCompositeKey = true → f = "id") ∧
     (rule.MeilisearchPrimaryKey = "" → rule.IsCompositeKey = false →
        ∃ col, pkColumn rule = some col ∧ f = env.WrapName rule col.Name)) ∧
    (∀ w : World σ, (c.GetIndex rule.MeilisearchIndex w.backend).1 ≠ none →
      ∃ g r rest, (createOrUpdateIndex env c rule w).2.calls =
          w.calls ++ Call.getIndex rule.MeilisearchIndex g ::
            Call.createIndex rule.MeilisearchIndex f r :: rest ∧
        ∀ call ∈ rest, call.isCreateIndex = false) ∧
    (∀ (row : RowRequest) (w : World σ),
      row.Action = InsertAction ∨ row.Action = UpdateAction →
      ∃ doc r rest, (processSingleRow env c row rule w).2.calls =
          w.calls ++ Call.addDocuments rule.MeilisearchIndex [doc] r :: rest ∧
        doc.get f = some (env.primaryKey row rule)) ∧
    (∀ (row : RowRequest) (w : World σ), eligible env row = some rule →
      ∃ doc r rest, (Stock env c [row] w).2.calls =
          w.calls ++ Call.addDocuments rule.MeilisearchIndex [doc] r :: rest ∧
        doc.get f = some (env.primaryKey row rule)) := by
  refine ⟨?_, ?_, ?_, ?_⟩
  · have hres := hf
    rw [← resolve_eq_code] at hres
    refine ⟨?_, ?_, ?_⟩
    · intro h
      rw [if_pos h] at hres
      exact (Option.some.inj hres).symm
    · intro h1 h2
      rw [if_neg (not_not.mpr h1), if_pos h2] at hres
      exact (Option.some.inj hres).symm
    · intro h1 h2
      rw [if_neg (not_not.mpr h1), if_neg (by simp [h2])] at hres
      cases hcol : pkColumn rule with
      | none => simp [hcol] at hres
      | some col => exact ⟨col, rfl, by simpa [hcol] using hres.symm⟩
  · intro w hg
    unfold createOrUpdateIndex
    dsimp only
    have hg1 : (getIndex c rule.MeilisearchIndex w).1 =
        (c.GetIndex rule.MeilisearchIndex w.backend).1 := rfl
    cases hgi : (c.GetIndex rule.MeilisearchIndex w.backend).1 with
    | none => exact absurd hgi hg
    | some e =>
      rw [hg1, hgi]
      dsimp only
      rw [resolve_eq_code, hf]
      dsimp only
      obtain ⟨r, tl, hc1, hc2⟩ := submitAndWait_createIndex_calls c rule.MeilisearchIndex f
        (getIndex c rule.MeilisearchIndex w).2
      obtain ⟨new, hn1, hn2⟩ := andThen_calls
        (Outcome.ret (submitAndWait c (createIndex c rule.MeilisearchIndex f)
            (getIndex c rule.MeilisearchIndex w).2).1,
          (submitAndWait c (createIndex c rule.MeilisearchIndex f)
            (getIndex c rule.MeilisearchIndex w).2).2)
        (fun w1 =>
          andThen (applyAttrs c .searchable rule.MeilisearchIndex
            rule.MeilisearchSearchableAttrs w1) fun w2 =>
          andThen (applyAttrs c .filterable rule.MeilisearchIndex
            rule.MeilisearchFilterableAttrs w2) fun w3 =>
          applyAttrs c .sortable rule.MeilisearchIndex rule.MeilisearchSortableAttrs w3)
        (fun call => call.isCreateIndex = false)
        (fun w1 => attrBlocks_no_create c rule rule.MeilisearchIndex w1)
      refine ⟨some e, r, tl ++ new, ?_, ?_⟩
      · rw [hn1]
        dsimp only
        rw [hc1]
        simp [getIndex, World.step, hgi]
      · intro call hcall
        rcases List.mem_append.mp hcall with h | h
        · exact hc2 call h
        · exact hn2 call h
  · intro row w ha
    have hm : streamMutationFor env row rule =
        some (.upsert rule.MeilisearchIndex
          ((env.rowMap row rule false).set f (env.primaryKey row rule))) := by
      simp [streamMutationFor, ha, specDocument, hf]
    rw [processSingleRow_some env c row rule w _ hm]
    obtain ⟨r, tl, hcalls⟩ := attempt_calls_head
      (.upsert rule.MeilisearchIndex
        ((env.rowMap row rule false).set f (env.primaryKey row rule)))
      (attempt c (.upsert rule.MeilisearchIndex
        ((env.rowMap row rule false).set f (env.primaryKey row rule))) w.backend).1
    exact ⟨_, r, tl, by rw [hcalls]; rfl, Document.get_set _ _ _⟩
  · intro row w he
    obtain ⟨hr, -, -⟩ := eligible_some he
    have hwf : ∀ r ∈ [row], wellFormed env r = true := by
      intro r hrm
      rw [List.mem_singleton.mp hrm]
      exact wellFormed_of hr hf
    rw [Stock_eq_stockLoop, stockLoop_run env c [row] hwf 0 w]
    simp only [List.filterMap_cons, List.filterMap_nil, bulkMutation_of_eligible he hf, attempts,
      traceOf, List.append_nil]
    obtain ⟨r, tl, hcalls⟩ := attempt_calls_head
      (.upsert rule.MeilisearchIndex
        ((env.rowMap row rule false).set f (env.primaryKey row rule)))
      (attempt c (.upsert rule.MeilisearchIndex
        ((env.rowMap row rule false).set f (env.primaryKey row rule))) w.backend).1
    exact ⟨_, r, tl, by rw [hcalls]; rfl, Document.get_set _ _ _⟩

/-! ## Insert then Delete on the reference backend -/

theorem attempt_mem_upsert (str : Value → String) (uid : String) (doc : Document)
    (s : MemBackend) (ix : IndexState) (v : Value)
    (h : s.indexes uid = some ix) (hget : doc.get ix.primaryKey = some v) :
    attempt (memClient str) (.upsert uid doc) s =
      (.completed (s.tasks.length : Int) .succeeded,
       { indexes := s.withIndex uid
           { ix with docs := fun k => if k = str v then some doc else ix.docs k },
         tasks := s.tasks ++ [.succeeded] }) := by
  unfold attempt
  simp [Mutation.submit, memClient, h, IndexState.store, hget, MemBackend.enqueue,
    sliceGet_length_append]

theorem attempt_mem_remove (str : Value → String) (uid docID : String)
    (s : MemBackend) (ix : IndexState) (h : s.indexes uid = some ix) :
    attempt (memClient str) (.remove uid docID) s =
      (.completed (s.tasks.length : Int) .succeeded,
       { indexes := s.withIndex uid (ix.delete docID), tasks := s.tasks ++ [.succeeded] }) := by
  unfold attempt
  simp [Mutation.submit, memClient, h, MemBackend.enqueue, sliceGet_length_append]

/-- One iteration of the loop of `Consume` on an event whose mutation succeeds. -/
theorem Consume_cons_ok {σ : Type} (env : Env) (c : Client σ) (pos : String × Nat)
    (row : RowRequest) (rows : List RowRequest) (rt : Runtime σ) (m : Mutation)
    (a : Attempt) (s1 : σ)
    (hwf : wellFormed env row = true) (hm : streamMutation env row = some m)
    (hatt : attempt c m rt.world.backend = (a, s1)) (ha : a.error = none) :
    ∃ rt1 : Runtime σ, rt1.world.backend = s1 ∧ rt1.world.calls = rt.world.calls ++ a.calls m ∧
      Consume env c pos (row :: rows) rt = Consume env c pos rows rt1 := by
  obtain ⟨metrics, hstep⟩ := Consume_cons_run env c pos row rows rt hwf
  refine ⟨{ world := { backend := s1, calls := rt.world.calls ++ a.calls m },
            metrics := metrics }, rfl, rfl, ?_⟩
  rw [hstep, hm]
  simp only [hatt, ha]

/-- C8 (as amended). Insert-then-Delete round trip on the reference backend, whose string form of
an identity is `stringutil.ToString`: for a rule with scripting disabled whose resolved
primary-key field is the primary-key field of its index, and rows whose column count matches,
`Consume` applied to an Insert followed by a Delete of a row with the same primary key returns no
error; after the Insert alone the document is stored under the string form of its identity, and
after both events no document is stored under that identity. -/
theorem insert_then_delete_round_trip (env : Env) (pos : String × Nat) (rule : Rule)
    (ins del : RowRequest) (rt : Runtime MemBackend) (ix : IndexState) (f : String)
    (hf : resolvePrimaryKeyField env rule = some f)
    (hix : rt.world.backend.indexes rule.MeilisearchIndex = some ix)
    (hpk : ix.primaryKey = f)
    (hins : eligible env ins = some rule) (hdel : eligible env del = some rule)
    (hia : ins.Action = InsertAction) (hda : del.Action = DeleteAction)
    (hsame : env.primaryKey del rule = env.primaryKey ins rule) :
    (Consume env (memClient env.ToString) pos [ins, del] rt).1 = .ret none ∧
    (∃ ix1 doc,
      (Consume env (memClient env.ToString) pos [ins] rt).2.world.backend.indexes
        rule.MeilisearchIndex = some ix1 ∧
      ix1.docs (env.ToString (env.primaryKey ins rule)) = some doc ∧
      doc.get f = some (env.primaryKey ins rule)) ∧
    (∃ ix2,
      (Consume env (memClient env.ToString) pos [ins, del] rt).2.world.backend.indexes
        rule.MeilisearchIndex = some ix2 ∧
      ix2.docs (env.ToString (env.primaryKey ins rule)) = none) := by
  obtain ⟨hri, -, -⟩ := eligible_some hins
  obtain ⟨hrd, -, -⟩ := eligible_some hdel
  have hmi : streamMutation env ins =
      some (.upsert rule.MeilisearchIndex
        ((env.rowMap ins rule false).set f (env.primaryKey ins rule))) := by
    simp [streamMutation, hins, streamMutationFor, hia, specDocument, hf]
  have hmd : streamMutation env del =
      some (.remove rule.MeilisearchIndex (env.ToString (env.primaryKey ins rule))) := by
    have h1 : ¬ (DeleteAction = InsertAction ∨ DeleteAction = UpdateAction) := by decide
    simp [streamMutation, hdel, streamMutationFor, hda, h1, hsame]
  have hget : ((env.rowMap ins rule false).set f (env.primaryKey ins rule)).get ix.primaryKey =
      some (env.primaryKey ins rule) := by rw [hpk]; exact Document.get_set _ _ _
  have hatt := attempt_mem_upsert env.ToString rule.MeilisearchIndex _ rt.world.backend ix _
    hix hget
  have step1 : ∀ rest : List RowRequest, ∃ rt1 : Runtime MemBackend,
      rt1.world.backend.indexes rule.MeilisearchIndex =
        some
          { ix with
            docs := fun k =>
              if k = env.ToString (env.primaryKey ins rule) then
                some ((env.rowMap ins rule false).set f (env.primaryKey ins rule))
              else ix.docs k } ∧
      Consume env (memClient env.ToString) pos (ins :: rest) rt =
        Consume env (memClient env.ToString) pos rest rt1 := by
    intro rest
    obtain ⟨rt1, hb, -, hstep⟩ := Consume_cons_ok env (memClient env.ToString) pos ins rest rt
      _ _ _ (wellFormed_of hri hf) hmi hatt rfl
    exact ⟨rt1, by rw [hb]; simp [MemBackend.withIndex], hstep⟩
  have step2 : ∀ rt1 : Runtime MemBackend, ∀ ix1 : IndexState,
      rt1.world.backend.indexes rule.MeilisearchIndex = some ix1 →
      (Consume env (memClient env.ToString) pos [del] rt1).1 = .ret none ∧
      (Consume env (memClient env.ToString) pos [del] rt1).2.world.backend.indexes
        rule.MeilisearchIndex =
        some (ix1.delete (env.ToString (env.primaryKey ins rule))) := by
    intro rt1 ix1 h1
    obtain ⟨rt2, hb, -, hstep⟩ := Consume_cons_ok env (memClient env.ToString) pos del [] rt1
      _ _ _ (wellFormed_of hrd hf) hmd
      (attempt_mem_remove env.ToString rule.MeilisearchIndex _ rt1.world.backend ix1 h1) rfl
    rw [hstep]
    simp only [Consume, hb, MemBackend.withIndex, if_true, and_self]
  refine ⟨?_, ?_, ?_⟩
  · obtain ⟨rt1, h1, hstep⟩ := step1 [del]
    rw [hstep]
    exact (step2 rt1 _ h1).1
  · obtain ⟨rt1, h1, hstep⟩ := step1 []
    rw [hstep]
    refine ⟨_, (env.rowMap ins rule false).set f (env.primaryKey ins rule),
      by simpa only [Consume] using h1, by simp, Document.get_set _ _ _⟩
  · obtain ⟨rt1, h1, hstep⟩ := step1 [del]
    rw [hstep]
    exact ⟨_, (step2 rt1 _ h1).2, by simp [IndexState.delete]⟩

/-- C8 (counterexample). The index holds a document under identity `"1"`.  (1) The rule of
`db.scripted` has scripting enabled: `Consume` on an Insert and a Delete with primary key `"1"`
returns no error, makes no client call, and the document is still stored under `"1"`.  (2) The
rows of the two events on `db.users` have one column value where the table has two: again no
client call is made and the document is still stored under `"1"`. -/
theorem insert_then_delete_dropped_events :
    (sampleEnv.RuleIns scriptedInsert.RuleKey = some scriptedRule ∧
     sampleEnv.RuleIns scriptedDelete.RuleKey = some scriptedRule ∧
     sampleEnv.LuaEnable scriptedRule = true ∧
     scriptedInsert.Action = InsertAction ∧ scriptedDelete.Action = DeleteAction ∧
     sampleEnv.primaryKey scriptedInsert scriptedRule = .str "1" ∧
     sampleEnv.primaryKey scriptedDelete scriptedRule = .str "1" ∧
     (Consume sampleEnv (memClient sampleEnv.ToString) ("binlog.000001", 4)
       [scriptedInsert, scriptedDelete] (Runtime.init usersBackend)).1 = .ret none ∧
     (Consume sampleEnv (memClient sampleEnv.ToString) ("binlog.000001", 4)
       [scriptedInsert, scriptedDelete] (Runtime.init usersBackend)).2.world.calls = [] ∧
     ((Consume sampleEnv (memClient sampleEnv.ToString) ("binlog.000001", 4)
       [scriptedInsert, scriptedDelete] (Runtime.init usersBackend)).2.world.backend.indexes
         scriptedRule.MeilisearchIndex).bind
         (fun ix => ix.docs (sampleEnv.ToString (.str "1"))) =
       some [("id", .str "1"), ("name", .str "old")]) ∧
    (sampleEnv.RuleIns shortInsert.RuleKey = some usersRule ∧
     sampleEnv.RuleIns shortDelete.RuleKey = some usersRule ∧
     sampleEnv.LuaEnable usersRule = false ∧
     usersRule.TableColumnSize ≠ (shortInsert.Row.length : Int) ∧
     usersRule.TableColumnSize ≠ (shortDelete.Row.length : Int) ∧
     shortInsert.Action = InsertAction ∧ shortDelete.Action = DeleteAction ∧
     sampleEnv.primaryKey shortInsert usersRule = .str "1" ∧
     sampleEnv.primaryKey shortDelete usersRule = .str "1" ∧
     (Consume sampleEnv (memClient sampleEnv.ToString) ("binlog.000001", 4)
       [shortInsert, shortDelete] (Runtime.init usersBackend)).1 = .ret none ∧
     (Consume sampleEnv (memClient sampleEnv.ToString) ("binlog.000001", 4)
       [shortInsert, shortDelete] (Runtime.init usersBackend)).2.world.calls = [] ∧
     ((Consume sampleEnv (memClient sampleEnv.ToString) ("binlog.000001", 4)
       [shortInsert, shortDelete] (Runtime.init usersBackend)).2.world.backend.indexes
         usersRule.MeilisearchIndex).bind
         (fun ix => ix.docs (sampleEnv.ToString (.str "1"))) =
       some [("id", .str "1"), ("name", .str "old")]) := by
  decide

/-- C3 (failing input). The backend accepts the upsert as task 7 and the job then fails:
`WaitForTask` returns the task with status failed and a nil error.  `Consume` returns no error
for the event and `Stock` counts it, although the log shows the failed job. -/
theorem job_failure_not_surfaced :
    (Consume sampleEnv jobFails ("binlog.000001", 4) [userEvent InsertAction "1" "a"]
      (Runtime.init ())).1 = .ret none ∧
    (Consume sampleEnv jobFails ("binlog.000001", 4) [userEvent InsertAction "1" "a"]
      (Runtime.init ())).2.world.calls =
      [Call.addDocuments "users" [[("id", .str "1"), ("name", .str "a")]] (.ok 7),
       Call.waitForTask 7 (.ok .failed)] ∧
    (Stock sampleEnv jobFails [userEvent InsertAction "1" "a"] (World.init ())).1 = .ret 1 ∧
    (Stock sampleEnv jobFails [userEvent InsertAction "1" "a"] (World.init ())).2.calls =
      [Call.addDocuments "users" [[("id", .str "1"), ("name", .str "a")]] (.ok 7),
       Call.waitForTask 7 (.ok .failed)] := by
  decide

/-! ## The claims on the streaming and the bulk path -/

theorem submission_upsert {call : Call} {uid : String} {doc : Document}
    (h : call.submission = some (.upsert uid doc)) :
    ∃ r, call = Call.addDocuments uid [doc] r := by
  cases call with
  | addDocuments u docs r =>
    match docs, h with
    | [d], h =>
      simp only [Call.submission, Option.some.injEq, Mutation.upsert.injEq] at h
      exact ⟨r, by rw [h.1, h.2]⟩
  | deleteDocument u d r => simp [Call.submission] at h
  | getIndex u r => simp [Call.submission] at h
  | createIndex u pk r => simp [Call.submission] at h
  | waitForTask t r => simp [Call.submission] at h
  | updateAttributes cat u attrs r => simp [Call.submission] at h

theorem traceOf_completed :
    ∀ (ms : List Mutation) (as : List Attempt), as.length = ms.length →
      ((traceOf ms as).filter Call.isCompletedWait).length =
        (as.filter Attempt.succeeded).length := by
  intro ms
  induction ms with
  | nil => intro as h; cases as <;> simp_all [traceOf]
  | cons m ms ih =>
    intro as h
    cases as with
    | nil => simp at h
    | cons a as =>
      simp only [List.length_cons, Nat.add_right_cancel_iff] at h
      simp only [traceOf, List.filter_append, List.length_append, ih as h]
      cases a <;> cases m <;>
        simp [Attempt.calls, Mutation.toCall, Call.isCompletedWait, Attempt.succeeded,
          Attempt.error, List.filter_cons, Nat.add_comm]

/-- C1. Streaming fail-fast: let the events before `ev` be well-formed and let every mutation of
theirs be submitted and awaited without error, in input order from the backend state at entry;
let the submission of the mutation `m` of `ev`, or its completion wait, then return the error
`e`.  Then `Consume` returns exactly `e`; the client calls it made are, in input order, the
submission and the completed wait of every applicable event before `ev`, followed by the failing
calls of `ev`, and nothing else (no call for any event after `ev`); and the backend is left as
the failing call left it. -/
theorem Consume_fail_fast {σ : Type} (env : Env) (c : Client σ) (pos : String × Nat)
    (pre : List RowRequest) (ev : RowRequest) (post : List RowRequest) (rt : Runtime σ)
    (m : Mutation) (e : Error)
    (hwf : ∀ row ∈ pre, wellFormed env row = true)
    (hm : streamMutation env ev = some m)
    (hpre : ∀ a ∈ (attempts c (pre.filterMap (streamMutation env)) rt.world.backend).1,
      a.error = none)
    (hev : (attempt c m
      (attempts c (pre.filterMap (streamMutation env)) rt.world.backend).2).1.error = some e) :
    (Consume env c pos (pre ++ ev :: post) rt).1 = .ret (some e) ∧
    (Consume env c pos (pre ++ ev :: post) rt).2.world.calls =
      rt.world.calls ++
        (traceOf (pre.filterMap (streamMutation env))
          (attempts c (pre.filterMap (streamMutation env)) rt.world.backend).1 ++
        (attempt c m
          (attempts c (pre.filterMap (streamMutation env)) rt.world.backend).2).1.calls m) ∧
    (attempts c (pre.filterMap (streamMutation env)) rt.world.backend).1.length =
      (pre.filterMap (streamMutation env)).length ∧
    (Consume env c pos (pre ++ ev :: post) rt).2.world.backend =
      (attempt c m (attempts c (pre.filterMap (streamMutation env)) rt.world.backend).2).2 := by
  obtain ⟨h1, h2, h3⟩ := Consume_run_to_failure env c pos ev post m e hm pre rt hwf hpre hev
  exact ⟨h1, h2, attempts_length c _ _, h3⟩

/-- C2. Bulk fault isolation: on a batch of well-formed events `Stock` returns; the mutation of
every event that passes the checks is attempted, in input order, whatever happened to the events
before it; and the returned count is the number of those attempts whose submission and whose
completion wait both returned without error. -/
theorem Stock_counts_successes {σ : Type} (env : Env) (c : Client σ) (rows : List RowRequest)
    (w : World σ) (hwf : ∀ row ∈ rows, wellFormed env row = true) :
    (Stock env c rows w).1 =
      .ret ((attempts c (rows.filterMap (bulkMutation env)) w.backend).1.filter
        Attempt.succeeded).length ∧
    (Stock env c rows w).2.calls =
      w.calls ++ traceOf (rows.filterMap (bulkMutation env))
        (attempts c (rows.filterMap (bulkMutation env)) w.backend).1 ∧
    (attempts c (rows.filterMap (bulkMutation env)) w.backend).1.length =
      (rows.filterMap (bulkMutation env)).length ∧
    (Stock env c rows w).2.backend =
      (attempts c (rows.filterMap (bulkMutation env)) w.backend).2 := by
  rw [Stock_eq_stockLoop, stockLoop_run env c rows hwf 0 w]
  exact ⟨by simp, rfl, attempts_length c _ _, rfl⟩

/-- C10. Stock is action-agnostic: on a batch of well-formed events, the document mutations
`Stock` submits are, in input order, one upsert for every event that passes the column-count and
scripting checks, whatever its action (a Delete event included): the upsert of the event's
document is in the log.  No call of `Stock` is a document deletion, and the returned count is
the number of completion waits that returned without error. -/
theorem Stock_action_agnostic {σ : Type} (env : Env) (c : Client σ) (rows : List RowRequest)
    (w : World σ) (hwf : ∀ row ∈ rows, wellFormed env row = true) :
    ∃ new, (Stock env c rows w).2.calls = w.calls ++ new ∧
      new.filterMap Call.submission = rows.filterMap (bulkMutation env) ∧
      (∀ row ∈ rows, ∀ rule, eligible env row = some rule →
        ∃ doc, specDocument env row rule = some doc ∧
          bulkMutation env row = some (.upsert rule.MeilisearchIndex doc) ∧
          ∃ r, Call.addDocuments rule.MeilisearchIndex [doc] r ∈ new) ∧
      (∀ call ∈ new, call.isDeleteDocument = false) ∧
      (Stock env c rows w).1 = .ret (new.filter Call.isCompletedWait).length := by
  have hlen := attempts_length c (rows.filterMap (bulkMutation env)) w.backend
  have hsub := traceOf_submissions _ _ hlen
  refine ⟨traceOf (rows.filterMap (bulkMutation env))
    (attempts c (rows.filterMap (bulkMutation env)) w.backend).1, ?_, hsub, ?_, ?_, ?_⟩
  · rw [Stock_eq_stockLoop, stockLoop_run env c rows hwf 0 w]
  · intro row hrow rule he
    obtain ⟨rule1, hr1, hres⟩ := wellFormed_some (hwf row hrow)
    obtain ⟨hr, -, -⟩ := eligible_some he
    have : rule1 = rule := by rw [hr] at hr1; exact (Option.some.inj hr1).symm
    subst this
    obtain ⟨f, hf⟩ := Option.isSome_iff_exists.mp hres
    have hb := bulkMutation_of_eligible he hf
    refine ⟨_, by simp [specDocument, hf], hb, ?_⟩
    have hmem : Mutation.upsert rule1.MeilisearchIndex
        ((env.rowMap row rule1 false).set f (env.primaryKey row rule1)) ∈
        rows.filterMap (bulkMutation env) := List.mem_filterMap.mpr ⟨row, hrow, hb⟩
    rw [← hsub] at hmem
    obtain ⟨call, hcall, hs⟩ := List.mem_filterMap.mp hmem
    obtain ⟨r, rfl⟩ := submission_upsert hs
    exact ⟨r, hcall⟩
  · exact traceOf_no_delete _ _ (bulkMutation_upsert env rows)
  · rw [Stock_eq_stockLoop, stockLoop_run env c rows hwf 0 w, traceOf_completed _ _ hlen]
    simp

/-! ## The claims at concrete inputs -/

/-- C1 at the batch E1, E2, E3, E4 where the submission of E3 fails: the error of E3 is returned,
E1 and E2 are submitted and awaited, nothing is submitted for E4. -/
theorem Consume_fail_fast_four_events :
    (Consume sampleEnv thirdSubmissionFails ("binlog.000001", 4)
      ([userEvent InsertAction "1" "a", userEvent InsertAction "2" "b"] ++
        userEvent InsertAction "3" "c" :: [userEvent InsertAction "4" "d"])
      (Runtime.init 0)).1 = .ret (some "rejected") ∧
    (Consume sampleEnv thirdSubmissionFails ("binlog.000001", 4)
      ([userEvent InsertAction "1" "a", userEvent InsertAction "2" "b"] ++
        userEvent InsertAction "3" "c" :: [userEvent InsertAction "4" "d"])
      (Runtime.init 0)).2.world.calls =
      [Call.addDocuments "users" [[("id", .str "1"), ("name", .str "a")]] (.ok 0),
       Call.waitForTask 0 (.ok .succeeded),
       Call.addDocuments "users" [[("id", .str "2"), ("name", .str "b")]] (.ok 1),
       Call.waitForTask 1 (.ok .succeeded),
       Call.addDocuments "users" [[("id", .str "3"), ("name", .str "c")]] (.err "rejected")] :=
  have h := Consume_fail_fast sampleEnv thirdSubmissionFails ("binlog.000001", 4)
    [userEvent InsertAction "1" "a", userEvent InsertAction "2" "b"]
    (userEvent InsertAction "3" "c") [userEvent InsertAction "4" "d"] (Runtime.init 0)
    (.upsert "users" [("id", .str "3"), ("name", .str "c")]) "rejected"
    (by decide) (by decide) (by decide) (by decide)
  ⟨h.1, h.2.1.trans (by decide)⟩

/-- C2 at the batch E1, E2, E3, E4 where the submission of E3 fails: the count is 3. -/
theorem Stock_counts_four_events :
    (Stock sampleEnv thirdSubmissionFails fourEvents (World.init 0)).1 = .ret 3 :=
  (Stock_counts_successes sampleEnv thirdSubmissionFails fourEvents (World.init 0)
    (by decide)).1.trans (by decide)

/-- C4 at a batch with an event of one column value on a two-column table. -/
theorem schema_mismatch_dropped_example :
    sampleEnv.RuleIns shortEvent.RuleKey = some usersRule ∧
    usersRule.TableColumnSize ≠ (shortEvent.Row.length : Int) ∧
    Consume sampleEnv thirdSubmissionFails ("binlog.000001", 4)
        ([userEvent InsertAction "1" "a"] ++ shortEvent :: [userEvent InsertAction "2" "b"])
        (Runtime.init 0) =
      Consume sampleEnv thirdSubmissionFails ("binlog.000001", 4)
        ([userEvent InsertAction "1" "a"] ++ [userEvent InsertAction "2" "b"])
        (Runtime.init 0) ∧
    Stock sampleEnv thirdSubmissionFails
        ([userEvent InsertAction "1" "a"] ++ shortEvent :: [userEvent InsertAction "2" "b"])
        (World.init 0) =
      Stock sampleEnv thirdSubmissionFails
        ([userEvent InsertAction "1" "a"] ++ [userEvent InsertAction "2" "b"])
        (World.init 0) :=
  ⟨by decide, by decide,
   (schema_mismatch_dropped sampleEnv thirdSubmissionFails ("binlog.000001", 4)
      [userEvent InsertAction "1" "a"] [userEvent InsertAction "2" "b"] shortEvent usersRule
      (by decide) (by decide)).1 (Runtime.init 0),
   (schema_mismatch_dropped sampleEnv thirdSubmissionFails ("binlog.000001", 4)
      [userEvent InsertAction "1" "a"] [userEvent InsertAction "2" "b"] shortEvent usersRule
      (by decide) (by decide)).2 (World.init 0)⟩

/-- C9 at a batch with an event of the scripted rule. -/
theorem scripting_skipped_example :
    sampleEnv.RuleIns scriptedInsert.RuleKey = some scriptedRule ∧
    sampleEnv.LuaEnable scriptedRule = true ∧
    (Consume sampleEnv thirdSubmissionFails ("binlog.000001", 4)
        ([userEvent InsertAction "1" "a"] ++ scriptedInsert :: [userEvent InsertAction "2" "b"])
        (Runtime.init 0)).1 =
      (Consume sampleEnv thirdSubmissionFails ("binlog.000001", 4)
        ([userEvent InsertAction "1" "a"] ++ [userEvent InsertAction "2" "b"])
        (Runtime.init 0)).1 ∧
    (Consume sampleEnv thirdSubmissionFails ("binlog.000001", 4)
        ([userEvent InsertAction "1" "a"] ++ scriptedInsert :: [userEvent InsertAction "2" "b"])
        (Runtime.init 0)).2.world =
      (Consume sampleEnv thirdSubmissionFails ("binlog.000001", 4)
        ([userEvent InsertAction "1" "a"] ++ [userEvent InsertAction "2" "b"])
        (Runtime.init 0)).2.world ∧
    Stock sampleEnv thirdSubmissionFails
        ([userEvent InsertAction "1" "a"] ++ scriptedInsert :: [userEvent InsertAction "2" "b"])
        (World.init 0) =
      Stock sampleEnv thirdSubmissionFails
        ([userEvent InsertAction "1" "a"] ++ [userEvent InsertAction "2" "b"])
        (World.init 0) :=
  ⟨by decide, by decide,
   ((scripting_skipped sampleEnv thirdSubmissionFails ("binlog.000001", 4)
      [userEvent InsertAction "1" "a"] [userEvent InsertAction "2" "b"] scriptedInsert
      scriptedRule (by decide) (by decide)).1 (Runtime.init 0)).1,
   ((scripting_skipped sampleEnv thirdSubmissionFails ("binlog.000001", 4)
      [userEvent InsertAction "1" "a"] [userEvent InsertAction "2" "b"] scriptedInsert
      scriptedRule (by decide) (by decide)).1 (Runtime.init 0)).2,
   (scripting_skipped sampleEnv thirdSubmissionFails ("binlog.000001", 4)
      [userEvent InsertAction "1" "a"] [userEvent InsertAction "2" "b"] scriptedInsert
      scriptedRule (by decide) (by decide)).2 (World.init 0)⟩

/-- C6 at the rule of `db.users` on a backend without any index. -/
theorem provisioning_idempotent_example :
    (resolvePrimaryKeyField sampleEnv usersRule).isSome = true ∧
    (createOrUpdateIndex sampleEnv (memClient sampleEnv.ToString) usersRule
      (World.init emptyBackend)).1 = .ret none ∧
    (createOrUpdateIndex sampleEnv (memClient sampleEnv.ToString) usersRule
      (createOrUpdateIndex sampleEnv (memClient sampleEnv.ToString) usersRule
        (World.init emptyBackend)).2).1 = .ret none ∧
    ((createOrUpdateIndex sampleEnv (memClient sampleEnv.ToString) usersRule
      (createOrUpdateIndex sampleEnv (memClient sampleEnv.ToString) usersRule
        (World.init emptyBackend)).2).2.backend.indexes "users").map IndexState.config =
    ((createOrUpdateIndex sampleEnv (memClient sampleEnv.ToString) usersRule
      (World.init emptyBackend)).2.backend.indexes "users").map IndexState.config :=
  have h := provisioning_idempotent sampleEnv sampleEnv.ToString usersRule
    (World.init emptyBackend) (by decide)
  ⟨by decide, h.1, h.2.1, h.2.2.2 "users"⟩

/-- C7 at the rule of `db.users`, whose primary-key field resolves to `id`: `Stock` stores the
identity of an event under `id`. -/
theorem primary_key_field_example :
    resolvePrimaryKeyField sampleEnv usersRule = some "id" ∧
    ∃ doc r rest,
      (Stock sampleEnv jobFails [userEvent InsertAction "1" "a"] (World.init ())).2.calls =
        (World.init ()).calls ++ Call.addDocuments usersRule.MeilisearchIndex [doc] r :: rest ∧
      doc.get "id" = some (sampleEnv.primaryKey (userEvent InsertAction "1" "a") usersRule) :=
  ⟨by decide,
   (primary_key_field_consistent sampleEnv jobFails usersRule "id" (by decide)).2.2.2
      (userEvent InsertAction "1" "a") (World.init ()) (by decide)⟩

/-- C8 (as amended) at the rule of `db.users`: after the Insert and the Delete of primary key
`"1"` the index `users` holds no document under `"1"`. -/
theorem insert_then_delete_example :
    (Consume sampleEnv (memClient sampleEnv.ToString) ("binlog.000001", 4)
      [userEvent InsertAction "1" "a", userEvent DeleteAction "1" "b"]
      (Runtime.init usersBackend)).1 = .ret none ∧
    ∃ ix2,
      (Consume sampleEnv (memClient sampleEnv.ToString) ("binlog.000001", 4)
        [userEvent InsertAction "1" "a", userEvent DeleteAction "1" "b"]
        (Runtime.init usersBackend)).2.world.backend.indexes usersRule.MeilisearchIndex =
        some ix2 ∧
      ix2.docs (sampleEnv.ToString
        (sampleEnv.primaryKey (userEvent InsertAction "1" "a") usersRule)) = none :=
  have h := insert_then_delete_round_trip sampleEnv ("binlog.000001", 4) usersRule
    (userEvent InsertAction "1" "a") (userEvent DeleteAction "1" "b")
    (Runtime.init usersBackend) usersIndex "id"
    (by decide) rfl rfl (by decide) (by decide) rfl rfl (by decide)
  ⟨h.1, h.2.2⟩

/-- C10 at a batch of one Delete event: `Stock` submits an upsert of its document, no deletion,
and counts it. -/
theorem Stock_action_agnostic_delete_event :
    (userEvent DeleteAction "1" "a").Action = DeleteAction ∧
    ∃ new,
      (Stock sampleEnv thirdSubmissionFails [userEvent DeleteAction "1" "a"]
        (World.init 0)).2.calls = (World.init 0).calls ++ new ∧
      new.filterMap Call.submission =
        [userEvent DeleteAction "1" "a"].filterMap (bulkMutation sampleEnv) ∧
      (∀ row ∈ [userEvent DeleteAction "1" "a"], ∀ rule, eligible sampleEnv row = some rule →
        ∃ doc, specDocument sampleEnv row rule = some doc ∧
          bulkMutation sampleEnv row = some (.upsert rule.MeilisearchIndex doc) ∧
          ∃ r, Call.addDocuments rule.MeilisearchIndex [doc] r ∈ new) ∧
      (∀ call ∈ new, call.isDeleteDocument = false) ∧
      (Stock sampleEnv thirdSubmissionFails [userEvent DeleteAction "1" "a"]
        (World.init 0)).1 = .ret (new.filter Call.isCompletedWait).length :=
  ⟨rfl,
   Stock_action_agnostic sampleEnv thirdSubmissionFails [userEvent DeleteAction "1" "a"]
     (World.init 0) (by decide)⟩

end Meili
